import Mathlib

/-!
# CGestureMatcher: gesture catalogue, name table and numeric helpers

A shallow embedding of `src/gesture_checker/CGestureMatcher.h`.

* `enum GestureType` is an unscoped C++ enumeration; a value of that type is an
  integer, so `GestureType` is `Int` and every enumerator is a named integer
  constant.  An enumerator without an initialiser is the previous one plus one
  (the first is `0`), which is how the constants below are written.
* `std::string` is `String`; `name.compare(lit) == 0` is string equality.
* `float` is the IEEE 754 binary32 format (`F32`): NaN, the two infinities and
  the finite values with their bit fields; subtraction and division round to
  nearest, ties to even, overflow to an infinity and underflow gradually.  The
  helpers `maprange` and `merge` of the source are `F32.maprange` and
  `F32.merge`.
* The matcher entry point has no body in the source and is modelled from the
  specification with scores that are exact rationals in [0,1]; on such values
  `merge` is the maximum of two numbers (`F32.merge_toRat`).
-/

namespace CGestureMatcher

/-! ## `enum GestureType` -/

/-- A value of the enumeration type: an integer. -/
abbrev GestureType := Int

-- Finger gestures
def TriggerFinger : GestureType := 0
def LowerFist : GestureType := TriggerFinger + 1
def Pinch : GestureType := LowerFist + 1
def Thumbpress : GestureType := Pinch + 1
-- Hand gestures
def FlippingTheBird : GestureType := Thumbpress + 1
def ILY : GestureType := FlippingTheBird + 1
def Victory : GestureType := ILY + 1
def FlatHandPalmUp : GestureType := Victory + 1
def FlatHandPalmDown : GestureType := FlatHandPalmUp + 1
def FlatHandPalmAway : GestureType := FlatHandPalmDown + 1
def FlatHandPalmTowards : GestureType := FlatHandPalmAway + 1
def ThumbUp : GestureType := FlatHandPalmTowards + 1
def ThumbInward : GestureType := ThumbUp + 1
-- VRChat gestures
def VRChat_Point : GestureType := ThumbInward + 1
def VRChat_RockOut : GestureType := VRChat_Point + 1
def VRChat_SpreadHand : GestureType := VRChat_RockOut + 1
def VRChat_Gun : GestureType := VRChat_SpreadHand + 1
def VRChat_ThumbsUp : GestureType := VRChat_Gun + 1
def VRChat_Victory : GestureType := VRChat_ThumbsUp + 1
-- Two handed gestures
def Timeout : GestureType := VRChat_Victory + 1
def TouchpadAxisX : GestureType := Timeout + 1
def TouchpadAxisY : GestureType := TouchpadAxisX + 1

def NUM_GESTURES : GestureType := TouchpadAxisY + 1

def INVALID_GESTURE : GestureType := -1

/-- The 22 gesture enumerators in the order of their declaration (the two
sentinels `NUM_GESTURES` and `INVALID_GESTURE` left out). -/
def declaredGestures : List GestureType :=
  [TriggerFinger, LowerFist, Pinch, Thumbpress,
   FlippingTheBird, ILY, Victory, FlatHandPalmUp, FlatHandPalmDown,
   FlatHandPalmAway, FlatHandPalmTowards, ThumbUp, ThumbInward,
   VRChat_Point, VRChat_RockOut, VRChat_SpreadHand, VRChat_Gun,
   VRChat_ThumbsUp, VRChat_Victory,
   Timeout, TouchpadAxisX, TouchpadAxisY]

/-! ## Name table -/

/-- Map the GestureType enum to a string name (the `switch` of the source,
its cases in the order they are written; `default` is the last branch). -/
def GestureNameFromType (gesture : GestureType) : String :=
  if gesture = TriggerFinger then "TriggerFinger"
  else if gesture = LowerFist then "LowerFist"
  else if gesture = Pinch then "Pinch"
  else if gesture = Thumbpress then "Thumbpress"
  else if gesture = ILY then "ILY"
  else if gesture = FlippingTheBird then "FlippingTheBird"
  else if gesture = Victory then "Victory"
  else if gesture = FlatHandPalmUp then "FlatHandPalmUp"
  else if gesture = FlatHandPalmDown then "FlatHandPalmDown"
  else if gesture = FlatHandPalmAway then "FlatHandPalmAway"
  else if gesture = FlatHandPalmTowards then "FlatHandPalmTowards"
  else if gesture = ThumbUp then "ThumbUp"
  else if gesture = ThumbInward then "ThumbInward"
  else if gesture = VRChat_Gun then "VRChat_Gun"
  else if gesture = VRChat_Point then "VRChat_Point"
  else if gesture = VRChat_RockOut then "VRChat_RockOut"
  else if gesture = VRChat_SpreadHand then "VRChat_SpreadHand"
  else if gesture = VRChat_ThumbsUp then "VRChat_ThumbsUp"
  else if gesture = VRChat_Victory then "VRChat_Victory"
  else if gesture = Timeout then "Timeout"
  else if gesture = TouchpadAxisX then "TouchpadAxisX"
  else if gesture = TouchpadAxisY then "TouchpadAxisY"
  else ""

/-- Map a string name to the GestureType enum, case sensitive: the chain of
`name.compare(...) == 0` tests of the source, ending in `INVALID_GESTURE`. -/
def GestureTypeFromName (name : String) : GestureType :=
  if name = "TriggerFinger" then TriggerFinger
  else if name = "LowerFist" then LowerFist
  else if name = "Pinch" then Pinch
  else if name = "Thumbpress" then Thumbpress
  else if name = "ILY" then ILY
  else if name = "FlippingTheBird" then FlippingTheBird
  else if name = "Victory" then Victory
  else if name = "FlatHandPalmUp" then FlatHandPalmUp
  else if name = "FlatHandPalmDown" then FlatHandPalmDown
  else if name = "FlatHandPalmAway" then FlatHandPalmAway
  else if name = "FlatHandPalmTowards" then FlatHandPalmTowards
  else if name = "ThumbUp" then ThumbUp
  else if name = "ThumbInward" then ThumbInward
  else if name = "VRChat_Gun" then VRChat_Gun
  else if name = "VRChat_Point" then VRChat_Point
  else if name = "VRChat_RockOut" then VRChat_RockOut
  else if name = "VRChat_SpreadHand" then VRChat_SpreadHand
  else if name = "VRChat_ThumbsUp" then VRChat_ThumbsUp
  else if name = "VRChat_Victory" then VRChat_Victory
  else if name = "Timeout" then Timeout
  else if name = "TouchpadAxisX" then TouchpadAxisX
  else if name = "TouchpadAxisY" then TouchpadAxisY
  else INVALID_GESTURE

/-- The canonical gesture names: the names `GestureNameFromType` gives to the
ordinals `0, 1, ..., NUM_GESTURES - 1`. -/
def canonicalNames : List String :=
  (List.range NUM_GESTURES.toNat).map fun i => GestureNameFromType (Int.ofNat i)

/-- Letter-case folding of one character code: an ASCII capital letter
(`A`..`Z`, codes 65..90) becomes its small letter, every other code is kept. -/
def foldAsciiCase (c : Char) : Nat :=
  if 65 ≤ c.toNat ∧ c.toNat ≤ 90 then c.toNat + 32 else c.toNat

/-- Equality of two strings when the case of ASCII letters is ignored. -/
def eqIgnoreAsciiCase (s t : String) : Prop :=
  s.data.map foldAsciiCase = t.data.map foldAsciiCase

instance (s t : String) : Decidable (eqIgnoreAsciiCase s t) := by
  unfold eqIgnoreAsciiCase; infer_instance

/-! ## The type `float`

The helpers `maprange` and `merge` compute on values of the C++ type `float`.
They are modelled in the IEEE 754 binary32 format, every operation rounded to
nearest, ties to even, with no wider intermediate precision.  The bit patterns
of NaN are taken as one value `nan`. -/

/-- A value of the type `float`: NaN, an infinity with its sign, or a finite
number with its sign bit, its biased exponent field `expo` (0 to 254) and its
23-bit fraction field `mant`. -/
inductive F32 where
  | nan
  | inf (neg : Bool)
  | fin (neg : Bool) (expo : Fin 255) (mant : Fin 8388608)
  deriving DecidableEq

namespace F32

/-- The magnitude of a value counted in units of `2 ^ (-149)`, the smallest
positive `float`: `mant` for a subnormal number (`expo = 0`),
`(2 ^ 23 + mant) * 2 ^ (expo - 1)` for a normal one.  An infinity counts as
`2 ^ 24 * 2 ^ 253`, that is `2 ^ 128`, which is above every finite magnitude. -/
def mag : F32 → Nat
  | nan => 0
  | inf _ => 16777216 * 2 ^ 253
  | fin _ e m => if e.val = 0 then m.val else (8388608 + m.val) * 2 ^ (e.val - 1)

/-- The sign bit. -/
def isNeg : F32 → Bool
  | nan => false
  | inf s => s
  | fin s _ _ => s

/-- The position of a value that is not NaN on the number line, in units of
`2 ^ (-149)`; both zeros are at 0. -/
def ord (a : F32) : Int := if a.isNeg then -(a.mag : Int) else (a.mag : Int)

def isNaN : F32 → Bool
  | nan => true
  | _ => false

def isFinite : F32 → Bool
  | fin _ _ _ => true
  | _ => false

/-- The comparison `a < b` of two `float` values: false when one is NaN. -/
def lt (a b : F32) : Bool := !a.isNaN && !b.isNaN && decide (a.ord < b.ord)

/-- The comparison `a <= b`: false when one is NaN. -/
def le (a b : F32) : Bool := !a.isNaN && !b.isNaN && decide (a.ord ≤ b.ord)

/-- The comparison `a == b`: false when one is NaN, true for `-0 == +0`. -/
def eq (a b : F32) : Bool := !a.isNaN && !b.isNaN && decide (a.ord = b.ord)

/-- The constant `0.0f`. -/
def zero : F32 := fin false 0 0

/-- The constant `1.0f`. -/
def one : F32 := fin false 127 0

/-- The finite value with significand `m` (at most `2 ^ 24`) and unit
`2 ^ s * 2 ^ (-149)`, or the infinity when the exponent leaves the format. -/
def encode (neg : Bool) (m s : Nat) : F32 :=
  if h1 : m < 8388608 then fin neg 0 ⟨m, h1⟩
  else if h2 : m < 16777216 then
    if h3 : s + 1 < 255 then fin neg ⟨s + 1, h3⟩ ⟨m - 8388608, by omega⟩ else inf neg
  else
    if h3 : s + 2 < 255 then fin neg ⟨s + 2, h3⟩ 0 else inf neg

/-- How often `n` is halved until it is below `2 ^ 24`. -/
def halvings : Nat → Nat → Nat
  | 0, _ => 0
  | fuel + 1, n => if n < 16777216 then 0 else halvings fuel (n / 2) + 1

/-- The binary exponent of the unit in the last place for a magnitude whose
integer part is `n`: the number of bits of `n` beyond 24. -/
def shift (n : Nat) : Nat := halvings n n

/-- The integer nearest to `p / q`, the even one of the two when `p / q` is
halfway between them. -/
def nearestEven (p q : Nat) : Nat :=
  if 2 * (p % q) < q then p / q
  else if q < 2 * (p % q) then p / q + 1
  else p / q + (p / q) % 2

/-- Rounding to nearest, ties to even: the `float` with sign `neg` nearest to
the magnitude `p / q` (in units of `2 ^ (-149)`, `q` not 0); a magnitude of
`2 ^ 128` or more gives the infinity. -/
def roundQuot (neg : Bool) (p q : Nat) : F32 :=
  if 16777216 * 2 ^ 253 ≤ p / q then inf neg
  else encode neg (nearestEven p (q * 2 ^ shift (p / q))) (shift (p / q))

/-- The operator `a - b` on `float`. -/
def sub : F32 → F32 → F32
  | nan, _ => nan
  | _, nan => nan
  | inf s, inf t => if s = t then nan else inf s
  | inf s, fin _ _ _ => inf s
  | fin _ _ _, inf t => inf (!t)
  | fin s e m, fin t f n =>
    if (fin s e m).ord = (fin t f n).ord then fin (s && !t) 0 0
    else roundQuot (decide ((fin s e m).ord < (fin t f n).ord))
      ((fin s e m).ord - (fin t f n).ord).natAbs 1

/-- The operator `a / b` on `float`. -/
def div : F32 → F32 → F32
  | nan, _ => nan
  | _, nan => nan
  | inf _, inf _ => nan
  | inf s, fin t _ _ => inf (xor s t)
  | fin s _ _, inf t => fin (xor s t) 0 0
  | fin s e m, fin t f n =>
    if (fin t f n).mag = 0 then (if (fin s e m).mag = 0 then nan else inf (xor s t))
    else roundQuot (xor s t) ((fin s e m).mag * 2 ^ 149) (fin t f n).mag

/-- The function `std::min(a, b)` of the C++ library: `(b < a) ? b : a`. -/
def std_min (a b : F32) : F32 := if b.lt a then b else a

/-- The function `std::max(a, b)` of the C++ library: `(a < b) ? b : a`. -/
def std_max (a b : F32) : F32 := if a.lt b then b else a

/-- The helper `maprange`: `mapped = (input - minimum) / (maximum - minimum)`,
then `std::max(std::min(mapped, 1.0f), 0.0f)`. -/
def maprange (input minimum maximum : F32) : F32 :=
  std_max (std_min (div (sub input minimum) (sub maximum minimum)) one) zero

/-- The helper `merge(float &result, float value)`: the returned value is the
content of `result` after the call, `std::max(result, value)`. -/
def merge (result value : F32) : F32 := std_max result value

/-- The `float` nearest to the whole number `n`. -/
def ofNat (n : Nat) : F32 := roundQuot false (n * 2 ^ 149) 1

/-- The value `2 ^ 127`. -/
def big : F32 := fin false 254 0

/-- The value `-(2 ^ 127)`. -/
def negBig : F32 := fin true 254 0

/-- The rational number that a finite value stands for. -/
def toRat (a : F32) : ℚ := (a.ord : ℚ) / 2 ^ 149

end F32

/-! ## Confidences as exact numbers

The matcher of the specification combines scores that lie in [0,1].  On such
values `std::max` involves no rounding, and `merge` is taken on exact rational
numbers here; `F32.merge_toRat` relates it to the function on `float`. -/

/-- The function `std::max(a, b)` of the C++ library on exact numbers:
`(a < b) ? b : a`. -/
def std_max (a b : ℚ) : ℚ := if a < b then b else a

/-- The helper `merge(float &result, float value)` on exact numbers: the
returned number is the content of `result` after the call,
`std::max(result, value)`. -/
def merge (result value : ℚ) : ℚ := std_max result value

/-! ## Hand selector and matcher entry point

The header declares `MatchGestures` and gives it no body; the definitions of
this section other than `WhichHand` follow the specification (sections 3 and
4.3). -/

/-- The enumeration `WhichHand` of the source. -/
inductive WhichHand where
  | AnyHand
  | LeftHand
  | RightHand
  deriving DecidableEq

/-- Modelled from the spec: the tracking frame handed to `MatchGestures`, whose
type `Leap::Frame` is not part of the source.  It holds zero, one or two
tracked hands; a hand that is not tracked is `none`. -/
structure Frame (Hand : Type) where
  left : Option Hand
  right : Option Hand

/-- Modelled from the spec: the per-hand classification logic, which the
source does not contain and the specification leaves open.  `oneHand` scores a
gesture of a single hand against the orientation basis (right, in, up);
`bothHands` scores a two-handed gesture for a hand together with the other
hand.  Every score is a confidence in [0,1], as section 4.3 requires. -/
structure Classifier (Hand Vec : Type) where
  oneHand : Vec → Vec → Vec → Hand → GestureType → ℚ
  bothHands : Vec → Vec → Vec → Hand → Hand → GestureType → ℚ
  oneHand_unit : ∀ r i u h g, 0 ≤ oneHand r i u h g ∧ oneHand r i u h g ≤ 1
  bothHands_unit : ∀ r i u h o g, 0 ≤ bothHands r i u h o g ∧ bothHands r i u h o g ≤ 1

/-- The gestures declared under `// Two handed gestures` in the enumeration. -/
def isTwoHanded (g : GestureType) : Bool :=
  g = Timeout || g = TouchpadAxisX || g = TouchpadAxisY

/-- Modelled from the spec: the confidence computed for one hand slot of the
frame, `MatchGestures` having no body in the source.  A hand that is not
tracked contributes 0; a two-handed gesture is computed only when the other
hand is tracked too and is 0 otherwise; any other gesture is scored from the
hand alone. -/
def handConfidence {Hand Vec : Type} (c : Classifier Hand Vec) (right inward up : Vec)
    (hand other : Option Hand) (g : GestureType) : ℚ :=
  match hand with
  | none => 0
  | some h =>
    if isTwoHanded g then
      match other with
      | none => 0
      | some o => c.bothHands right inward up h o g
    else c.oneHand right inward up h g

/-- Modelled from the spec: one slot of the confidence vector that
`MatchGestures` fills.  A selector naming one hand gives the confidence of
that hand (0 when it is not tracked); `AnyHand` merges the confidences of the
two hands with `merge`. -/
def slotConfidence {Hand Vec : Type} (c : Classifier Hand Vec) (frame : Frame Hand)
    (which : WhichHand) (right inward up : Vec) (g : GestureType) : ℚ :=
  match which with
  | WhichHand.LeftHand => handConfidence c right inward up frame.left frame.right g
  | WhichHand.RightHand => handConfidence c right inward up frame.right frame.left g
  | WhichHand.AnyHand =>
    merge (handConfidence c right inward up frame.left frame.right g)
      (handConfidence c right inward up frame.right frame.left g)

/-- Modelled from the spec: the matcher entry point `MatchGestures`, declared
in the source without a body.  The result is the success indicator (whether
the frame holds a tracked hand) and the confidence vector `result`, one slot
for each ordinal `0, ..., NUM_GESTURES - 1`. -/
def MatchGestures {Hand Vec : Type} (c : Classifier Hand Vec) (frame : Frame Hand)
    (which : WhichHand) (right inward up : Vec) : Bool × List ℚ :=
  (frame.left.isSome || frame.right.isSome,
   (List.range NUM_GESTURES.toNat).map fun i =>
     slotConfidence c frame which right inward up (Int.ofNat i))

/-- A classifier over hands that are described by one truth value (the hand
shows the gesture or does not), used to evaluate the matcher on concrete
frames. -/
def crispClassifier : Classifier Bool Unit where
  oneHand := fun _ _ _ h _ => if h then 1 else 0
  bothHands := fun _ _ _ h o _ => if h && o then 1 else 0
  oneHand_unit := by
    intro _ _ _ h _
    cases h <;> norm_num
  bothHands_unit := by
    intro _ _ _ h o _
    cases h <;> cases o <;> norm_num

/-! ## Facts about the enumeration -/

theorem NUM_GESTURES_eq : NUM_GESTURES = 22 := by decide

theorem INVALID_GESTURE_eq : INVALID_GESTURE = -1 := rfl

theorem canonicalNames_eq : canonicalNames =
    ["TriggerFinger", "LowerFist", "Pinch", "Thumbpress", "FlippingTheBird", "ILY",
     "Victory", "FlatHandPalmUp", "FlatHandPalmDown", "FlatHandPalmAway",
     "FlatHandPalmTowards", "ThumbUp", "ThumbInward", "VRChat_Point", "VRChat_RockOut",
     "VRChat_SpreadHand", "VRChat_Gun", "VRChat_ThumbsUp", "VRChat_Victory", "Timeout",
     "TouchpadAxisX", "TouchpadAxisY"] := by decide

/-- Name then look up: the ordinal comes back, for every ordinal in range. -/
theorem typeFromName_nameFromType (g : Int) (h0 : 0 ≤ g) (h1 : g < NUM_GESTURES) :
    GestureTypeFromName (GestureNameFromType g) = g := by
  rw [NUM_GESTURES_eq] at h1
  interval_cases g <;> decide

/-- The `switch` with every case label written as its number. -/
theorem GestureNameFromType_eq (g : Int) : GestureNameFromType g =
    if g = 0 then "TriggerFinger"
    else if g = 1 then "LowerFist"
    else if g = 2 then "Pinch"
    else if g = 3 then "Thumbpress"
    else if g = 5 then "ILY"
    else if g = 4 then "FlippingTheBird"
    else if g = 6 then "Victory"
    else if g = 7 then "FlatHandPalmUp"
    else if g = 8 then "FlatHandPalmDown"
    else if g = 9 then "FlatHandPalmAway"
    else if g = 10 then "FlatHandPalmTowards"
    else if g = 11 then "ThumbUp"
    else if g = 12 then "ThumbInward"
    else if g = 16 then "VRChat_Gun"
    else if g = 13 then "VRChat_Point"
    else if g = 14 then "VRChat_RockOut"
    else if g = 15 then "VRChat_SpreadHand"
    else if g = 17 then "VRChat_ThumbsUp"
    else if g = 18 then "VRChat_Victory"
    else if g = 19 then "Timeout"
    else if g = 20 then "TouchpadAxisX"
    else if g = 21 then "TouchpadAxisY"
    else "" := rfl

/-- Outside the range of ordinals the `switch` falls to `default`. -/
theorem nameFromType_of_not_range (v : Int) (h : ¬ (0 ≤ v ∧ v < NUM_GESTURES)) :
    GestureNameFromType v = "" := by
  rw [NUM_GESTURES_eq] at h
  rw [GestureNameFromType_eq,
    if_neg (show ¬ v = 0 by omega),
    if_neg (show ¬ v = 1 by omega),
    if_neg (show ¬ v = 2 by omega),
    if_neg (show ¬ v = 3 by omega),
    if_neg (show ¬ v = 5 by omega),
    if_neg (show ¬ v = 4 by omega),
    if_neg (show ¬ v = 6 by omega),
    if_neg (show ¬ v = 7 by omega),
    if_neg (show ¬ v = 8 by omega),
    if_neg (show ¬ v = 9 by omega),
    if_neg (show ¬ v = 10 by omega),
    if_neg (show ¬ v = 11 by omega),
    if_neg (show ¬ v = 12 by omega),
    if_neg (show ¬ v = 16 by omega),
    if_neg (show ¬ v = 13 by omega),
    if_neg (show ¬ v = 14 by omega),
    if_neg (show ¬ v = 15 by omega),
    if_neg (show ¬ v = 17 by omega),
    if_neg (show ¬ v = 18 by omega),
    if_neg (show ¬ v = 19 by omega),
    if_neg (show ¬ v = 20 by omega),
    if_neg (show ¬ v = 21 by omega)]

/-- The two outcomes of a lookup by name: either the name is none of the
canonical names and the result is `INVALID_GESTURE`, or the result is an
ordinal in range whose name is the string looked up. -/
theorem typeFromName_cases (s : String) :
    (GestureTypeFromName s = INVALID_GESTURE ∧ s ∉ canonicalNames) ∨
    (0 ≤ GestureTypeFromName s ∧ GestureTypeFromName s < NUM_GESTURES ∧
      GestureNameFromType (GestureTypeFromName s) = s ∧ s ∈ canonicalNames) := by
  by_cases h1 : s = "TriggerFinger"
  · subst h1; decide
  by_cases h2 : s = "LowerFist"
  · subst h2; decide
  by_cases h3 : s = "Pinch"
  · subst h3; decide
  by_cases h4 : s = "Thumbpress"
  · subst h4; decide
  by_cases h5 : s = "ILY"
  · subst h5; decide
  by_cases h6 : s = "FlippingTheBird"
  · subst h6; decide
  by_cases h7 : s = "Victory"
  · subst h7; decide
  by_cases h8 : s = "FlatHandPalmUp"
  · subst h8; decide
  by_cases h9 : s = "FlatHandPalmDown"
  · subst h9; decide
  by_cases h10 : s = "FlatHandPalmAway"
  · subst h10; decide
  by_cases h11 : s = "FlatHandPalmTowards"
  · subst h11; decide
  by_cases h12 : s = "ThumbUp"
  · subst h12; decide
  by_cases h13 : s = "ThumbInward"
  · subst h13; decide
  by_cases h14 : s = "VRChat_Gun"
  · subst h14; decide
  by_cases h15 : s = "VRChat_Point"
  · subst h15; decide
  by_cases h16 : s = "VRChat_RockOut"
  · subst h16; decide
  by_cases h17 : s = "VRChat_SpreadHand"
  · subst h17; decide
  by_cases h18 : s = "VRChat_ThumbsUp"
  · subst h18; decide
  by_cases h19 : s = "VRChat_Victory"
  · subst h19; decide
  by_cases h20 : s = "Timeout"
  · subst h20; decide
  by_cases h21 : s = "TouchpadAxisX"
  · subst h21; decide
  by_cases h22 : s = "TouchpadAxisY"
  · subst h22; decide
  refine Or.inl ⟨?_, ?_⟩
  · rw [GestureTypeFromName, if_neg h1, if_neg h2, if_neg h3, if_neg h4, if_neg h5, if_neg h6, if_neg h7, if_neg h8, if_neg h9, if_neg h10, if_neg h11, if_neg h12, if_neg h13, if_neg h14, if_neg h15, if_neg h16, if_neg h17, if_neg h18, if_neg h19, if_neg h20, if_neg h21, if_neg h22]
  · simp only [canonicalNames_eq, List.mem_cons, List.mem_singleton, List.not_mem_nil,
      h1, h2, h3, h4, h5, h6, h7, h8, h9, h10, h11, h12, h13, h14, h15, h16, h17, h18, h19, h20, h21, h22, or_self, not_false_eq_true]

theorem mem_canonicalNames_iff (s : String) :
    s ∈ canonicalNames ↔ ∃ g : Int, 0 ≤ g ∧ g < NUM_GESTURES ∧ GestureNameFromType g = s := by
  unfold canonicalNames
  rw [NUM_GESTURES_eq, List.mem_map]
  constructor
  · rintro ⟨i, hi, rfl⟩
    rw [List.mem_range] at hi
    have h22 : (22 : Int).toNat = 22 := rfl
    rw [h22] at hi
    exact ⟨Int.ofNat i, Int.ofNat_nonneg i, by simp only [Int.ofNat_eq_coe]; omega, rfl⟩
  · rintro ⟨g, h0, h1, rfl⟩
    refine ⟨g.toNat, ?_, ?_⟩
    · rw [List.mem_range]; omega
    · simp only [Int.ofNat_eq_coe, Int.toNat_of_nonneg h0]

/-- No canonical name is the beginning of another canonical name. -/
theorem canonicalNames_prefix_free :
    ∀ n ∈ canonicalNames, ∀ m ∈ canonicalNames, n.data <+: m.data → n = m := by
  rw [canonicalNames_eq]; decide

/-- No two canonical names differ in letter case only. -/
theorem canonicalNames_case_free :
    ∀ n ∈ canonicalNames, ∀ m ∈ canonicalNames, eqIgnoreAsciiCase n m → n = m := by
  rw [canonicalNames_eq]; decide

theorem append_ne_self (s t : String) (ht : t ≠ "") : s ++ t ≠ s := by
  intro h
  apply ht
  have hd : (s ++ t).data = s.data := by rw [h]
  rw [String.data_append] at hd
  have : t.data = [] := by simpa using hd
  exact String.ext this

/-! ## The name table -/

/-- C1: for every one of the 22 gestures `g` from `TriggerFinger` through
`TouchpadAxisY`, looking up the name of `g` gives `g` back. -/
theorem typeFromName_of_nameFromType (g : Int) (hlo : TriggerFinger ≤ g)
    (hhi : g ≤ TouchpadAxisY) :
    GestureTypeFromName (GestureNameFromType g) = g := by
  have h0 : TriggerFinger = 0 := rfl
  have h21 : TouchpadAxisY = 21 := by decide
  rw [h0] at hlo
  rw [h21] at hhi
  interval_cases g <;> decide

theorem typeFromName_of_nameFromType_witness :
    GestureTypeFromName (GestureNameFromType VRChat_Gun) = VRChat_Gun :=
  typeFromName_of_nameFromType VRChat_Gun (by decide) (by decide)

/-- C2: a lookup by name gives `INVALID_GESTURE` exactly when the string is
none of the 22 canonical names; the empty string, every string that a
canonical name properly extends (a proper prefix of it) and every string that
properly extends a canonical name by further characters give
`INVALID_GESTURE`. -/
theorem typeFromName_eq_invalid_iff :
    (∀ s : String, GestureTypeFromName s = INVALID_GESTURE ↔ s ∉ canonicalNames) ∧
    canonicalNames.length = 22 ∧
    GestureTypeFromName "" = INVALID_GESTURE ∧
    (∀ n ∈ canonicalNames, ∀ s t : String, t ≠ "" → n = s ++ t →
      GestureTypeFromName s = INVALID_GESTURE) ∧
    (∀ n ∈ canonicalNames, ∀ t : String, t ≠ "" →
      GestureTypeFromName (n ++ t) = INVALID_GESTURE) := by
  have key : ∀ s : String, GestureTypeFromName s = INVALID_GESTURE ↔ s ∉ canonicalNames := by
    intro s
    rcases typeFromName_cases s with ⟨h, hn⟩ | ⟨h0, _, _, hm⟩
    · exact ⟨fun _ => hn, fun _ => h⟩
    · constructor
      · intro h; rw [h] at h0; exact absurd h0 (by decide)
      · intro hn; exact absurd hm hn
  refine ⟨key, by decide, by decide, ?_, ?_⟩
  · intro n hn s t ht hst
    rw [key]
    intro hs
    have hpre : s.data <+: n.data := ⟨t.data, by rw [hst, String.data_append]⟩
    have hsn : s = n := canonicalNames_prefix_free s hs n hn hpre
    rw [hsn] at hst
    exact append_ne_self n t ht hst.symm
  · intro n hn t ht
    rw [key]
    intro hs
    have hpre : n.data <+: (n ++ t).data := ⟨t.data, by rw [String.data_append]⟩
    exact append_ne_self n t ht (canonicalNames_prefix_free n hn (n ++ t) hs hpre).symm

theorem typeFromName_eq_invalid_iff_witness :
    GestureTypeFromName "Pin" = INVALID_GESTURE ∧
    GestureTypeFromName "Pinched" = INVALID_GESTURE ∧
    GestureTypeFromName "Pinch" ≠ INVALID_GESTURE :=
  ⟨typeFromName_eq_invalid_iff.2.2.2.1 "Pinch" (by decide) "Pin" "ch" (by decide) (by decide),
   typeFromName_eq_invalid_iff.2.2.2.2 "Pinch" (by decide) "ed" (by decide),
   fun h => (typeFromName_eq_invalid_iff.1 "Pinch").1 h (by decide)⟩

/-- C3: the name of an integer value `v` is the empty string exactly when `v`
is outside `0 <= v < NUM_GESTURES`; the names of `NUM_GESTURES` and of
`INVALID_GESTURE` are empty and every gesture in range has a non-empty name. -/
theorem nameFromType_eq_empty_iff :
    (∀ v : Int, GestureNameFromType v = "" ↔ ¬ (0 ≤ v ∧ v < NUM_GESTURES)) ∧
    GestureNameFromType NUM_GESTURES = "" ∧
    GestureNameFromType INVALID_GESTURE = "" ∧
    (∀ g : Int, 0 ≤ g → g < NUM_GESTURES → GestureNameFromType g ≠ "") := by
  have inRange : ∀ g : Int, 0 ≤ g → g < NUM_GESTURES → GestureNameFromType g ≠ "" := by
    intro g h0 h1
    rw [NUM_GESTURES_eq] at h1
    interval_cases g <;> decide
  refine ⟨?_, by decide, by decide, inRange⟩
  intro v
  constructor
  · intro hv hr
    exact inRange v hr.1 hr.2 hv
  · exact nameFromType_of_not_range v

theorem nameFromType_eq_empty_iff_witness :
    GestureNameFromType 22 = "" ∧ GestureNameFromType (-7) = "" ∧
    GestureNameFromType Timeout ≠ "" :=
  ⟨(nameFromType_eq_empty_iff.1 22).2 (by decide),
   (nameFromType_eq_empty_iff.1 (-7)).2 (by decide),
   nameFromType_eq_empty_iff.2.2.2 Timeout (by decide) (by decide)⟩

/-- C4: every string that the lookup by name accepts is the name of the
gesture it is mapped to, and the accepted strings are exactly the names of the
22 gestures in range. -/
theorem nameFromType_of_typeFromName :
    (∀ s : String, GestureTypeFromName s ≠ INVALID_GESTURE →
      GestureNameFromType (GestureTypeFromName s) = s) ∧
    (∀ s : String, GestureTypeFromName s ≠ INVALID_GESTURE ↔
      ∃ g : Int, 0 ≤ g ∧ g < NUM_GESTURES ∧ GestureNameFromType g = s) := by
  constructor
  · intro s hs
    rcases typeFromName_cases s with ⟨h, _⟩ | ⟨_, _, h, _⟩
    · exact absurd h hs
    · exact h
  · intro s
    rw [← mem_canonicalNames_iff]
    rcases typeFromName_cases s with ⟨h, hn⟩ | ⟨h0, _, _, hm⟩
    · exact ⟨fun hs => absurd h hs, fun hm => absurd hm hn⟩
    · refine ⟨fun _ => hm, fun _ h => ?_⟩
      rw [h] at h0; exact absurd h0 (by decide)

theorem nameFromType_of_typeFromName_witness :
    GestureNameFromType (GestureTypeFromName "ThumbInward") = "ThumbInward" :=
  nameFromType_of_typeFromName.1 "ThumbInward" (by decide)

/-- C5: the lookup by name does not fold letter case: a string that equals the
name of a gesture in range when ASCII letter case is ignored, and is not that
name itself, is mapped to `INVALID_GESTURE`. -/
theorem typeFromName_case_sensitive (g : Int) (h0 : 0 ≤ g) (h1 : g < NUM_GESTURES)
    (s : String) (hfold : eqIgnoreAsciiCase s (GestureNameFromType g))
    (hne : s ≠ GestureNameFromType g) :
    GestureTypeFromName s = INVALID_GESTURE := by
  rcases typeFromName_cases s with ⟨h, _⟩ | ⟨_, _, _, hm⟩
  · exact h
  · have hg : GestureNameFromType g ∈ canonicalNames :=
      (mem_canonicalNames_iff _).2 ⟨g, h0, h1, rfl⟩
    exact absurd (canonicalNames_case_free s hm _ hg hfold) hne

theorem typeFromName_case_sensitive_witness :
    GestureTypeFromName "pinch" = INVALID_GESTURE ∧
    GestureTypeFromName "PINCH" = INVALID_GESTURE ∧
    GestureTypeFromName "timeout" = INVALID_GESTURE :=
  ⟨typeFromName_case_sensitive Pinch (by decide) (by decide) "pinch" (by decide) (by decide),
   typeFromName_case_sensitive Pinch (by decide) (by decide) "PINCH" (by decide) (by decide),
   typeFromName_case_sensitive Timeout (by decide) (by decide) "timeout" (by decide)
     (by decide)⟩

/-- C6: no two different gestures in range have the same name, and the list of
canonical names has no duplicate. -/
theorem nameFromType_injective (g1 g2 : Int) (h1 : 0 ≤ g1 ∧ g1 < NUM_GESTURES)
    (h2 : 0 ≤ g2 ∧ g2 < NUM_GESTURES) (hne : g1 ≠ g2) :
    GestureNameFromType g1 ≠ GestureNameFromType g2 ∧ canonicalNames.Nodup := by
  refine ⟨fun h => hne ?_, by rw [canonicalNames_eq]; decide⟩
  rw [← typeFromName_nameFromType g1 h1.1 h1.2, h, typeFromName_nameFromType g2 h2.1 h2.2]

theorem nameFromType_injective_witness :
    GestureNameFromType Victory ≠ GestureNameFromType VRChat_Victory ∧ canonicalNames.Nodup :=
  nameFromType_injective Victory VRChat_Victory (by decide) (by decide) (by decide)

/-- C7: the 22 gestures have, in the order of their declaration, the ordinals
0, 1, ..., 21, all distinct; `NUM_GESTURES` is 22, the number of values that
`GestureNameFromType` names, which are the declared gestures;
`INVALID_GESTURE` is -1, negative, and not an index below `NUM_GESTURES`. -/
theorem enum_layout :
    declaredGestures = (List.range 22).map Int.ofNat ∧
    declaredGestures.Nodup ∧
    TriggerFinger = 0 ∧ TouchpadAxisY = 21 ∧
    NUM_GESTURES = 22 ∧
    (declaredGestures.length : Int) = NUM_GESTURES ∧
    (∀ v : Int, GestureNameFromType v ≠ "" ↔ v ∈ declaredGestures) ∧
    (∀ v : Int, v ∈ declaredGestures ↔ 0 ≤ v ∧ v < NUM_GESTURES) ∧
    INVALID_GESTURE = -1 ∧ INVALID_GESTURE < 0 ∧
    ¬ (0 ≤ INVALID_GESTURE ∧ INVALID_GESTURE < NUM_GESTURES) := by
  have hmem : ∀ v : Int, v ∈ declaredGestures ↔ 0 ≤ v ∧ v < NUM_GESTURES := by
    intro v
    have hd : declaredGestures =
        [0, 1, 2, 3, 4, 5, 6, 7, 8, 9, 10, 11, 12, 13, 14, 15, 16, 17, 18, 19, 20, 21] := by
      decide
    rw [hd, NUM_GESTURES_eq]
    simp only [List.mem_cons, List.mem_singleton, List.not_mem_nil, or_false]
    omega
  refine ⟨by decide, by decide, rfl, by decide, by decide, by decide, ?_, hmem,
    rfl, by decide, by decide⟩
  intro v
  rw [hmem]
  constructor
  · intro hv
    by_contra hr
    exact hv (nameFromType_of_not_range v hr)
  · rintro ⟨h0, h1⟩
    rw [NUM_GESTURES_eq] at h1
    interval_cases v <;> decide

/-! ## Range of the lookup by name -/

/-- C16: the result of a lookup by name is `INVALID_GESTURE` or an ordinal `g`
with `0 <= g < NUM_GESTURES`; it is never `NUM_GESTURES`, and a result that is
not `INVALID_GESTURE` is an index below `NUM_GESTURES`. -/
theorem typeFromName_range (s : String) :
    (GestureTypeFromName s = INVALID_GESTURE ∨
      (0 ≤ GestureTypeFromName s ∧ GestureTypeFromName s < NUM_GESTURES)) ∧
    GestureTypeFromName s ≠ NUM_GESTURES ∧
    (GestureTypeFromName s ≠ INVALID_GESTURE →
      0 ≤ GestureTypeFromName s ∧ GestureTypeFromName s < NUM_GESTURES) := by
  rcases typeFromName_cases s with ⟨h, _⟩ | ⟨h0, h1, _, _⟩
  · refine ⟨Or.inl h, ?_, fun hne => absurd h hne⟩
    rw [h]; decide
  · exact ⟨Or.inr ⟨h0, h1⟩, ne_of_lt h1, fun _ => ⟨h0, h1⟩⟩

theorem typeFromName_range_witness :
    0 ≤ GestureTypeFromName "Timeout" ∧ GestureTypeFromName "Timeout" < NUM_GESTURES :=
  (typeFromName_range "Timeout").2.2 (by decide)

/-! ## Confidences as exact numbers: `merge` is the maximum -/

theorem std_max_eq_max (a b : ℚ) : std_max a b = max a b := by
  unfold std_max
  split_ifs with h
  · exact (max_eq_right h.le).symm
  · exact (max_eq_left (not_lt.mp h)).symm

theorem merge_eq_max (a b : ℚ) : merge a b = max a b := std_max_eq_max a b

/-! ## The matcher entry point -/

theorem handConfidence_nonneg {Hand Vec : Type} (c : Classifier Hand Vec) (r i u : Vec)
    (hand other : Option Hand) (g : GestureType) :
    0 ≤ handConfidence c r i u hand other g := by
  unfold handConfidence
  cases hand with
  | none => exact le_refl 0
  | some h =>
    cases other with
    | none =>
      by_cases ht : isTwoHanded g = true
      · simp only [ht, if_true]; exact le_refl 0
      · simp only [ht]; exact (c.oneHand_unit r i u h g).1
    | some o =>
      by_cases ht : isTwoHanded g = true
      · simp only [ht, if_true]; exact (c.bothHands_unit r i u h o g).1
      · simp only [ht]; exact (c.oneHand_unit r i u h g).1

theorem matchGestures_snd {Hand Vec : Type} (c : Classifier Hand Vec) (frame : Frame Hand)
    (which : WhichHand) (r i u : Vec) :
    (MatchGestures c frame which r i u).2 =
      (List.range NUM_GESTURES.toNat).map fun k =>
        slotConfidence c frame which r i u (Int.ofNat k) := rfl

/-- C13: with `AnyHand` every slot of the confidence vector is the maximum of
the confidences computed for the left and for the right hand, a hand that is
not tracked contributing 0; so for a frame in which only the left hand is
tracked `AnyHand` and `LeftHand` fill the same confidence vector. -/
theorem matchGestures_anyHand {Hand Vec : Type} (c : Classifier Hand Vec)
    (frame : Frame Hand) (right inward up : Vec) (h : Hand) :
    (MatchGestures c frame WhichHand.AnyHand right inward up).2 =
      (List.range 22).map (fun i =>
        max (handConfidence c right inward up frame.left frame.right (Int.ofNat i))
          (handConfidence c right inward up frame.right frame.left (Int.ofNat i))) ∧
    (∀ g : GestureType, handConfidence c right inward up none frame.left g = 0 ∧
      handConfidence c right inward up none frame.right g = 0) ∧
    (MatchGestures c ⟨some h, none⟩ WhichHand.AnyHand right inward up).2 =
      (MatchGestures c ⟨some h, none⟩ WhichHand.LeftHand right inward up).2 := by
  refine ⟨?_, fun g => ⟨rfl, rfl⟩, ?_⟩
  · rw [matchGestures_snd, NUM_GESTURES_eq]
    apply List.map_congr_left
    intro i _
    exact merge_eq_max _ _
  · rw [matchGestures_snd, matchGestures_snd]
    apply List.map_congr_left
    intro i _
    show merge (handConfidence c right inward up (some h) none (Int.ofNat i))
        (handConfidence c right inward up none (some h) (Int.ofNat i)) =
      handConfidence c right inward up (some h) none (Int.ofNat i)
    rw [merge_eq_max]
    exact max_eq_left (handConfidence_nonneg c right inward up (some h) none _)

theorem matchGestures_anyHand_witness :
    (MatchGestures crispClassifier ⟨some true, none⟩ WhichHand.AnyHand () () ()).2 =
      (MatchGestures crispClassifier ⟨some true, none⟩ WhichHand.LeftHand () () ()).2 :=
  (matchGestures_anyHand crispClassifier ⟨some true, none⟩ () () () true).2.2

/-! ## The numeric helpers on `float` -/

namespace F32

/-! ### Rounding -/

theorem halvings_spec (fuel n : Nat) (h : n ≤ fuel) :
    n < 16777216 * 2 ^ halvings fuel n ∧
    (1 ≤ halvings fuel n → 8388608 * 2 ^ halvings fuel n ≤ n) := by
  induction fuel generalizing n with
  | zero =>
    have hn : n = 0 := Nat.le_zero.mp h
    subst hn
    simp [halvings]
  | succ fuel ih =>
    unfold halvings
    by_cases hn : n < 16777216
    · simp only [hn, if_true, pow_zero, mul_one]
      exact ⟨trivial, fun h1 => absurd h1 (by omega)⟩
    · simp only [hn, if_false]
      obtain ⟨h1, h2⟩ := ih (n / 2) (by omega)
      rw [pow_succ]
      refine ⟨by omega, fun _ => ?_⟩
      by_cases hs : 1 ≤ halvings fuel (n / 2)
      · have := h2 hs
        omega
      · have h0 : halvings fuel (n / 2) = 0 := by omega
        rw [h0]
        omega

theorem shift_spec (n : Nat) :
    n < 16777216 * 2 ^ shift n ∧ (1 ≤ shift n → 8388608 * 2 ^ shift n ≤ n) :=
  halvings_spec n n (le_refl n)

theorem shift_mono {a b : Nat} (h : a ≤ b) : shift a ≤ shift b := by
  by_contra hlt
  have hlt : shift b < shift a := not_le.mp hlt
  have h1 := (shift_spec a).2 (by omega)
  have h2 := (shift_spec b).1
  have hp : 2 ^ (shift b + 1) ≤ 2 ^ shift a := Nat.pow_le_pow_right (by decide) hlt
  rw [pow_succ] at hp
  omega

theorem nearestEven_ge (p q : Nat) : p / q ≤ nearestEven p q := by
  unfold nearestEven
  split_ifs <;> omega

theorem nearestEven_le (p q : Nat) : nearestEven p q ≤ p / q + 1 := by
  unfold nearestEven
  split_ifs <;> omega

theorem div_le_div_of_cross (p1 q1 p2 q2 : Nat) (h1 : 0 < q1) (h2 : 0 < q2)
    (h : p1 * q2 ≤ p2 * q1) : p1 / q1 ≤ p2 / q2 := by
  rw [Nat.le_div_iff_mul_le h2]
  have ha : p1 / q1 * q1 ≤ p1 := Nat.div_mul_le_self p1 q1
  have hb : p1 / q1 * q2 * q1 ≤ p2 * q1 := by
    calc p1 / q1 * q2 * q1 = p1 / q1 * q1 * q2 := by ring
      _ ≤ p1 * q2 := Nat.mul_le_mul_right q2 ha
      _ ≤ p2 * q1 := h
  exact Nat.le_of_mul_le_mul_right hb h1

/-- Rounding to the nearest integer keeps the order of quotients. -/
theorem nearestEven_mono (p1 q1 p2 q2 : Nat) (h1 : 0 < q1) (h2 : 0 < q2)
    (h : p1 * q2 ≤ p2 * q1) : nearestEven p1 q1 ≤ nearestEven p2 q2 := by
  have hf : p1 / q1 ≤ p2 / q2 := div_le_div_of_cross p1 q1 p2 q2 h1 h2 h
  rcases Nat.lt_or_ge (p1 / q1) (p2 / q2) with hlt | hge
  · exact le_trans (nearestEven_le p1 q1) (le_trans hlt (nearestEven_ge p2 q2))
  · have hfe : p1 / q1 = p2 / q2 := le_antisymm hf hge
    have e1 : q1 * (p1 / q1) + p1 % q1 = p1 := Nat.div_add_mod p1 q1
    have e2 : q2 * (p2 / q2) + p2 % q2 = p2 := Nat.div_add_mod p2 q2
    have hr : p1 % q1 * q2 ≤ p2 % q2 * q1 := by
      have h' : (q1 * (p1 / q1) + p1 % q1) * q2 ≤ (q2 * (p2 / q2) + p2 % q2) * q1 := by
        rw [e1, e2]; exact h
      rw [hfe] at h'
      nlinarith
    unfold nearestEven
    rw [hfe]
    by_cases c1 : 2 * (p1 % q1) < q1
    · rw [if_pos c1]
      split_ifs <;> omega
    · rw [if_neg c1]
      have c2 : ¬ 2 * (p2 % q2) < q2 := by
        intro hc
        have : 2 * (p2 % q2) * q1 < q2 * q1 := Nat.mul_lt_mul_of_pos_right hc h1
        have : q1 * q2 ≤ 2 * (p1 % q1) * q2 := Nat.mul_le_mul_right q2 (not_lt.mp c1)
        nlinarith
      rw [if_neg c2]
      by_cases d1 : q1 < 2 * (p1 % q1)
      · rw [if_pos d1]
        have d2 : q2 < 2 * (p2 % q2) := by
          by_contra hc
          have : 2 * (p2 % q2) * q1 ≤ q2 * q1 := Nat.mul_le_mul_right q1 (not_lt.mp hc)
          have : q1 * q2 < 2 * (p1 % q1) * q2 := Nat.mul_lt_mul_of_pos_right d1 h2
          nlinarith
        rw [if_pos d2]
      · rw [if_neg d1]
        split_ifs <;> omega

theorem nearestEven_shift_bounds (p q : Nat) (hq : 0 < q) :
    nearestEven p (q * 2 ^ shift (p / q)) ≤ 16777216 ∧
    (1 ≤ shift (p / q) → 8388608 ≤ nearestEven p (q * 2 ^ shift (p / q))) := by
  obtain ⟨hs1, hs2⟩ := shift_spec (p / q)
  have hQ : 0 < q * 2 ^ shift (p / q) := Nat.mul_pos hq (Nat.two_pow_pos _)
  constructor
  · have hp : p < q * (p / q + 1) := Nat.lt_mul_div_succ p hq
    have hlt : p / (q * 2 ^ shift (p / q)) < 16777216 := by
      rw [Nat.div_lt_iff_lt_mul hQ]
      calc p < q * (p / q + 1) := hp
        _ ≤ q * (16777216 * 2 ^ shift (p / q)) := Nat.mul_le_mul_left q hs1
        _ = 16777216 * (q * 2 ^ shift (p / q)) := by ring
    have := nearestEven_le p (q * 2 ^ shift (p / q))
    omega
  · intro h1
    have hn := hs2 h1
    have hge : 8388608 ≤ p / (q * 2 ^ shift (p / q)) := by
      rw [Nat.le_div_iff_mul_le hQ]
      calc 8388608 * (q * 2 ^ shift (p / q)) = q * (8388608 * 2 ^ shift (p / q)) := by ring
        _ ≤ q * (p / q) := Nat.mul_le_mul_left q hn
        _ ≤ p := Nat.mul_div_le p q
    exact le_trans hge (nearestEven_ge p _)

/-- The rounded magnitude, in units of `2 ^ (-149)`: the nearest multiple of
the unit in the last place, and `2 ^ 128` for the infinity. -/
theorem roundQuot_mag (neg : Bool) (p q : Nat) (hq : 0 < q) :
    (roundQuot neg p q).mag =
      if 16777216 * 2 ^ 253 ≤ p / q then 16777216 * 2 ^ 253
      else nearestEven p (q * 2 ^ shift (p / q)) * 2 ^ shift (p / q) := by
  unfold roundQuot
  by_cases hbig : 16777216 * 2 ^ 253 ≤ p / q
  · rw [if_pos hbig, if_pos hbig]; rfl
  · rw [if_neg hbig, if_neg hbig]
    obtain ⟨hm1, hm2⟩ := nearestEven_shift_bounds p q hq
    obtain ⟨_, hs2⟩ := shift_spec (p / q)
    have hs : shift (p / q) ≤ 253 := by
      by_contra hc
      have h1 : 1 ≤ shift (p / q) := by omega
      have hn := hs2 h1
      have hp : 2 ^ 254 ≤ 2 ^ shift (p / q) := Nat.pow_le_pow_right (by decide) (by omega)
      have e : (2 : Nat) ^ 254 = 2 * 2 ^ 253 := by rw [← pow_succ']
      omega
    generalize nearestEven p (q * 2 ^ shift (p / q)) = m at hm1 hm2
    generalize shift (p / q) = s at hs hm2
    unfold encode
    by_cases c1 : m < 8388608
    · have hs0 : s = 0 := by
        by_contra hc
        have := hm2 (by omega)
        omega
      simp [c1, mag, hs0]
    · by_cases c2 : m < 16777216
      · have h3 : s + 1 < 255 := by omega
        simp only [c1, c2, h3, dite_true, dite_false, mag]
        have e : 8388608 + (m - 8388608) = m := by omega
        simp [e]
      · have hm : m = 16777216 := by omega
        subst hm
        by_cases h3 : s + 2 < 255
        · simp only [c1, c2, h3, dite_true, dite_false, mag]
          simp [pow_succ]
          ring
        · have hs' : s = 253 := by omega
          subst hs'
          simp [mag]

theorem roundQuot_isNeg (neg : Bool) (p q : Nat) : (roundQuot neg p q).isNeg = neg := by
  unfold roundQuot encode
  split_ifs <;> rfl

theorem roundQuot_isNaN (neg : Bool) (p q : Nat) : (roundQuot neg p q).isNaN = false := by
  unfold roundQuot encode
  split_ifs <;> rfl

theorem mag_le (a : F32) : a.mag ≤ 16777216 * 2 ^ 253 := by
  cases a with
  | nan => exact Nat.zero_le _
  | inf s => exact le_refl _
  | fin s e m =>
    show (if e.val = 0 then m.val else (8388608 + m.val) * 2 ^ (e.val - 1)) ≤ 16777216 * 2 ^ 253
    have hm := m.isLt
    have he := e.isLt
    split_ifs with h0
    · have : (1 : Nat) ≤ 2 ^ 253 := Nat.one_le_two_pow
      omega
    · have hp : 2 ^ (e.val - 1) ≤ 2 ^ 253 := Nat.pow_le_pow_right (by decide) (by omega)
      calc (8388608 + m.val) * 2 ^ (e.val - 1) ≤ 16777216 * 2 ^ (e.val - 1) :=
            Nat.mul_le_mul_right _ (by omega)
        _ ≤ 16777216 * 2 ^ 253 := Nat.mul_le_mul_left _ hp

/-- Rounding keeps the order of magnitudes: of two quotients the larger one is
rounded to the larger magnitude (or both to the same). -/
theorem roundQuot_mag_mono (n1 n2 : Bool) (p1 q1 p2 q2 : Nat) (h1 : 0 < q1) (h2 : 0 < q2)
    (h : p1 * q2 ≤ p2 * q1) : (roundQuot n1 p1 q1).mag ≤ (roundQuot n2 p2 q2).mag := by
  have hf : p1 / q1 ≤ p2 / q2 := div_le_div_of_cross p1 q1 p2 q2 h1 h2 h
  by_cases hbig2 : 16777216 * 2 ^ 253 ≤ p2 / q2
  · rw [roundQuot_mag n2 p2 q2 h2, if_pos hbig2]
    exact mag_le _
  · have hbig1 : ¬ 16777216 * 2 ^ 253 ≤ p1 / q1 := fun hc => hbig2 (le_trans hc hf)
    rw [roundQuot_mag n1 p1 q1 h1, roundQuot_mag n2 p2 q2 h2, if_neg hbig1, if_neg hbig2]
    have hs : shift (p1 / q1) ≤ shift (p2 / q2) := shift_mono hf
    rcases Nat.lt_or_ge (shift (p1 / q1)) (shift (p2 / q2)) with hlt | hge
    · have hm1 := (nearestEven_shift_bounds p1 q1 h1).1
      have hm2 := (nearestEven_shift_bounds p2 q2 h2).2 (by omega)
      have hp : 2 ^ (shift (p1 / q1) + 1) ≤ 2 ^ shift (p2 / q2) :=
        Nat.pow_le_pow_right (by decide) hlt
      calc nearestEven p1 (q1 * 2 ^ shift (p1 / q1)) * 2 ^ shift (p1 / q1)
          ≤ 16777216 * 2 ^ shift (p1 / q1) := Nat.mul_le_mul_right _ hm1
        _ = 8388608 * 2 ^ (shift (p1 / q1) + 1) := by rw [pow_succ]; ring
        _ ≤ 8388608 * 2 ^ shift (p2 / q2) := Nat.mul_le_mul_left _ hp
        _ ≤ nearestEven p2 (q2 * 2 ^ shift (p2 / q2)) * 2 ^ shift (p2 / q2) :=
            Nat.mul_le_mul_right _ hm2
    · have hse : shift (p1 / q1) = shift (p2 / q2) := le_antisymm hs hge
      rw [hse]
      apply Nat.mul_le_mul_right
      apply nearestEven_mono _ _ _ _ (Nat.mul_pos h1 (Nat.two_pow_pos _))
        (Nat.mul_pos h2 (Nat.two_pow_pos _))
      calc p1 * (q2 * 2 ^ shift (p2 / q2)) = p1 * q2 * 2 ^ shift (p2 / q2) := by ring
        _ ≤ p2 * q1 * 2 ^ shift (p2 / q2) := Nat.mul_le_mul_right _ h
        _ = p2 * (q1 * 2 ^ shift (p2 / q2)) := by ring

/-! ### Order and the clamping functions -/

theorem lt_iff (a b : F32) :
    a.lt b = true ↔ a.isNaN = false ∧ b.isNaN = false ∧ a.ord < b.ord := by
  simp [lt, and_assoc]

theorem le_iff (a b : F32) :
    a.le b = true ↔ a.isNaN = false ∧ b.isNaN = false ∧ a.ord ≤ b.ord := by
  simp [le, and_assoc]

theorem eq_iff (a b : F32) :
    a.eq b = true ↔ a.isNaN = false ∧ b.isNaN = false ∧ a.ord = b.ord := by
  simp [eq, and_assoc]

theorem ord_zero : zero.ord = 0 := by decide

set_option maxRecDepth 10000 in
theorem ord_one : one.ord = 2 ^ 149 := by decide

theorem ord_le (a : F32) : a.ord ≤ 16777216 * 2 ^ 253 := by
  have h := mag_le a
  unfold ord
  split_ifs <;> omega

theorem neg_le_ord (a : F32) : -(16777216 * 2 ^ 253) ≤ a.ord := by
  have h := mag_le a
  unfold ord
  split_ifs <;> omega

theorem mag_lt_of_isFinite (a : F32) (h : a.isFinite = true) : a.mag < 16777216 * 2 ^ 253 := by
  cases a with
  | nan => exact Bool.noConfusion h
  | inf s => exact Bool.noConfusion h
  | fin s e m =>
    show (if e.val = 0 then m.val else (8388608 + m.val) * 2 ^ (e.val - 1)) < 16777216 * 2 ^ 253
    have hm := m.isLt
    have he := e.isLt
    split_ifs with h0
    · have : (1 : Nat) ≤ 2 ^ 253 := Nat.one_le_two_pow
      omega
    · have hp : 2 ^ (e.val - 1) ≤ 2 ^ 253 := Nat.pow_le_pow_right (by decide) (by omega)
      have hpos : 0 < 2 ^ (e.val - 1) := Nat.two_pow_pos _
      calc (8388608 + m.val) * 2 ^ (e.val - 1) < 16777216 * 2 ^ (e.val - 1) :=
            Nat.mul_lt_mul_of_pos_right (by omega) hpos
        _ ≤ 16777216 * 2 ^ 253 := Nat.mul_le_mul_left _ hp

theorem isNaN_of_isFinite (a : F32) (h : a.isFinite = true) : a.isNaN = false := by
  cases a <;> first | rfl | exact Bool.noConfusion h

/-- A value of magnitude 0 is one of the two zeros. -/
theorem eq_zero_of_mag (a : F32) (hn : a.isNaN = false) (h : a.mag = 0) :
    a = fin a.isNeg 0 0 := by
  cases a with
  | nan => exact Bool.noConfusion hn
  | inf s =>
    have hp : 0 < 16777216 * 2 ^ 253 := Nat.mul_pos (by decide) (Nat.two_pow_pos _)
    have h' : 16777216 * 2 ^ 253 = 0 := h
    omega
  | fin s e m =>
    have h' : (if e.val = 0 then m.val else (8388608 + m.val) * 2 ^ (e.val - 1)) = 0 := h
    split_ifs at h' with h0
    · have he : e = 0 := Fin.ext h0
      have hm : m = 0 := Fin.ext h'
      subst he; subst hm; rfl
    · have hpos : 0 < 2 ^ (e.val - 1) := Nat.two_pow_pos _
      have : 0 < (8388608 + m.val) * 2 ^ (e.val - 1) := Nat.mul_pos (by omega) hpos
      omega

theorem std_max_isNaN (a b : F32) (ha : a.isNaN = false) : (std_max a b).isNaN = false := by
  unfold std_max
  split_ifs with h
  · exact ((lt_iff a b).1 h).2.1
  · exact ha

theorem std_max_ord (a b : F32) (ha : a.isNaN = false) (hb : b.isNaN = false) :
    (std_max a b).ord = max a.ord b.ord := by
  unfold std_max
  split_ifs with h
  · exact (max_eq_right (le_of_lt ((lt_iff a b).1 h).2.2)).symm
  · have hle : b.ord ≤ a.ord := by
      by_contra hc
      exact h ((lt_iff a b).2 ⟨ha, hb, not_le.mp hc⟩)
    exact (max_eq_left hle).symm

theorem std_min_ord (a b : F32) (ha : a.isNaN = false) (hb : b.isNaN = false) :
    (std_min a b).isNaN = false ∧ (std_min a b).ord = min a.ord b.ord := by
  unfold std_min
  split_ifs with h
  · exact ⟨hb, (min_eq_right (le_of_lt ((lt_iff b a).1 h).2.2)).symm⟩
  · have hle : a.ord ≤ b.ord := by
      by_contra hc
      exact h ((lt_iff b a).2 ⟨hb, ha, not_le.mp hc⟩)
    exact ⟨ha, (min_eq_left hle).symm⟩

theorem std_max_nan_left (b : F32) : std_max nan b = nan := rfl

theorem std_min_nan_left (b : F32) : std_min nan b = nan := by
  unfold std_min
  have : b.lt nan = false := by simp [lt, isNaN]
  rw [this]; rfl

/-- The last line of `maprange` on a quotient `z`: NaN stays NaN, every other
value is brought into [0,1] at the position `max (min z 1) 0`. -/
theorem clamp_spec (z : F32) :
    (z.isNaN = true → std_max (std_min z one) zero = nan) ∧
    (z.isNaN = false → (std_max (std_min z one) zero).isNaN = false ∧
      (std_max (std_min z one) zero).ord = max (min z.ord (2 ^ 149)) 0) := by
  constructor
  · intro hz
    cases z with
    | nan => rw [std_min_nan_left, std_max_nan_left]
    | inf s => exact Bool.noConfusion hz
    | fin s e m => exact Bool.noConfusion hz
  · intro hz
    obtain ⟨h1, h2⟩ := std_min_ord z one hz (by decide)
    refine ⟨std_max_isNaN _ _ h1, ?_⟩
    rw [std_max_ord _ _ h1 (by decide), h2, ord_one, ord_zero]

/-! ### Subtraction and division -/

theorem ord_eq (a : F32) : a.ord = if a.isNeg then -(a.mag : Int) else (a.mag : Int) := rfl

theorem signed_mono (na nb : Bool) (ka kb ma mb : Nat)
    (h : (if na then -(ka : Int) else (ka : Int)) ≤ (if nb then -(kb : Int) else (kb : Int)))
    (h1 : ka ≤ kb → ma ≤ mb) (h2 : kb ≤ ka → mb ≤ ma)
    (ha : ka = 0 → ma = 0) (hb : kb = 0 → mb = 0) :
    (if na then -(ma : Int) else (ma : Int)) ≤ (if nb then -(mb : Int) else (mb : Int)) := by
  cases na <;> cases nb <;> simp only [if_true, if_false, Bool.false_eq_true] at h ⊢
  · have := h1 (by omega); omega
  · have := ha (by omega); have := hb (by omega); omega
  · omega
  · have := h2 (by omega); omega

theorem roundQuot_mag_zero (neg : Bool) (q : Nat) (hq : 0 < q) : (roundQuot neg 0 q).mag = 0 := by
  have h := roundQuot_mag_mono neg false 0 q 0 1 hq (by decide) (by simp)
  have h0 : (roundQuot false 0 1).mag = 0 := by decide
  omega

theorem roundQuot_mag_pos (neg : Bool) (p q : Nat) (hq : 0 < q) (h : q ≤ p) :
    1 ≤ (roundQuot neg p q).mag := by
  have h1 := roundQuot_mag_mono false neg 1 1 p q (by decide) hq (by omega)
  have h0 : (roundQuot false 1 1).mag = 1 := by decide
  omega

theorem roundQuot_ord (neg : Bool) (p q : Nat) :
    (roundQuot neg p q).ord =
      if neg then -((roundQuot false p q).mag : Int) else ((roundQuot false p q).mag : Int) := by
  rw [ord_eq, roundQuot_isNeg]
  have hm : (roundQuot neg p q).mag = (roundQuot false p q).mag := by
    unfold roundQuot encode
    split_ifs <;> rfl
  rw [hm]

/-- The position of a difference of two finite values: the exact difference
`d`, rounded, with the sign of `d`. -/
theorem sub_fin_ord (s : Bool) (e : Fin 255) (m : Fin 8388608) (t : Bool) (f : Fin 255)
    (n : Fin 8388608) :
    (sub (fin s e m) (fin t f n)).isNaN = false ∧
    (sub (fin s e m) (fin t f n)).ord =
      if (fin s e m).ord - (fin t f n).ord < 0
      then -((roundQuot false ((fin s e m).ord - (fin t f n).ord).natAbs 1).mag : Int)
      else ((roundQuot false ((fin s e m).ord - (fin t f n).ord).natAbs 1).mag : Int) := by
  show (if (fin s e m).ord = (fin t f n).ord then fin (s && !t) 0 0
      else roundQuot (decide ((fin s e m).ord < (fin t f n).ord))
        ((fin s e m).ord - (fin t f n).ord).natAbs 1).isNaN = false ∧
    (if (fin s e m).ord = (fin t f n).ord then fin (s && !t) 0 0
      else roundQuot (decide ((fin s e m).ord < (fin t f n).ord))
        ((fin s e m).ord - (fin t f n).ord).natAbs 1).ord = _
  generalize (fin s e m).ord = x
  generalize (fin t f n).ord = y
  by_cases hxy : x = y
  · subst hxy
    rw [if_pos rfl]
    refine ⟨rfl, ?_⟩
    have h0 : (roundQuot false 0 1).mag = 0 := by decide
    simp only [sub_self, Int.natAbs_zero, h0]
    have hz : (fin (s && !t) 0 0).ord = 0 := by cases s <;> cases t <;> decide
    rw [hz]; simp
  · rw [if_neg hxy]
    refine ⟨roundQuot_isNaN _ _ _, ?_⟩
    rw [roundQuot_ord]
    by_cases hlt : x < y
    · have h1 : x - y < 0 := by omega
      simp only [hlt, h1, decide_True, if_true]
    · have h1 : ¬ x - y < 0 := by omega
      simp only [hlt, h1, decide_False, if_false, Bool.false_eq_true]

theorem sub_isNaN (x lo : F32) (hx : x.isNaN = false) (hlo : lo.isFinite = true) :
    (sub x lo).isNaN = false := by
  cases lo with
  | nan => exact Bool.noConfusion hlo
  | inf t => exact Bool.noConfusion hlo
  | fin t f n =>
    cases x with
    | nan => exact Bool.noConfusion hx
    | inf s => rfl
    | fin s e m => exact (sub_fin_ord s e m t f n).1

theorem signed_round_mono (M : Nat → Nat) (hM : ∀ a b, a ≤ b → M a ≤ M b) (x y : Int)
    (h : x ≤ y) :
    (if x < 0 then -((M x.natAbs : Nat) : Int) else ((M x.natAbs : Nat) : Int)) ≤
    (if y < 0 then -((M y.natAbs : Nat) : Int) else ((M y.natAbs : Nat) : Int)) := by
  split_ifs with hx hy hy
  · have := hM y.natAbs x.natAbs (by omega); omega
  · omega
  · omega
  · have := hM x.natAbs y.natAbs (by omega); omega

theorem roundInt_mono (a b : Nat) (h : a ≤ b) :
    (roundQuot false a 1).mag ≤ (roundQuot false b 1).mag :=
  roundQuot_mag_mono false false a 1 b 1 (by decide) (by decide) (by omega)

theorem ord_lt_of_isFinite (a : F32) (h : a.isFinite = true) :
    a.ord < 16777216 * 2 ^ 253 ∧ -(16777216 * 2 ^ 253) < a.ord := by
  have hm := mag_lt_of_isFinite a h
  rw [ord_eq]
  split_ifs <;> omega

theorem ord_inf_false : (inf false).ord = 16777216 * 2 ^ 253 := by
  show ((16777216 * 2 ^ 253 : Nat) : Int) = 16777216 * 2 ^ 253
  norm_cast

theorem ord_inf_true : (inf true).ord = -(16777216 * 2 ^ 253) := by
  show -((16777216 * 2 ^ 253 : Nat) : Int) = -(16777216 * 2 ^ 253)
  norm_cast

/-- Subtracting a finite value keeps the order of the values it is subtracted
from. -/
theorem sub_mono_left (x y lo : F32) (hx : x.isNaN = false) (hy : y.isNaN = false)
    (hlo : lo.isFinite = true) (h : x.ord ≤ y.ord) : (sub x lo).ord ≤ (sub y lo).ord := by
  cases lo with
  | nan => exact Bool.noConfusion hlo
  | inf t => exact Bool.noConfusion hlo
  | fin t f n =>
    cases x with
    | nan => exact Bool.noConfusion hx
    | inf s =>
      cases y with
      | nan => exact Bool.noConfusion hy
      | inf s' => exact h
      | fin s' e' m' =>
        have hf := ord_lt_of_isFinite (fin s' e' m') rfl
        cases s with
        | true =>
          have e : sub (inf true) (fin t f n) = inf true := rfl
          rw [e, ord_inf_true]
          exact neg_le_ord _
        | false =>
          have hT : (inf false).ord = 16777216 * 2 ^ 253 := ord_inf_false
          omega
    | fin s e m =>
      cases y with
      | nan => exact Bool.noConfusion hy
      | inf s' =>
        have hf := ord_lt_of_isFinite (fin s e m) rfl
        cases s' with
        | false =>
          have e : sub (inf false) (fin t f n) = inf false := rfl
          rw [e, ord_inf_false]
          exact ord_le _
        | true =>
          have hT : (inf true).ord = -(16777216 * 2 ^ 253) := ord_inf_true
          omega
      | fin s' e' m' =>
        rw [(sub_fin_ord s e m t f n).2, (sub_fin_ord s' e' m' t f n).2]
        exact signed_round_mono (fun k => (roundQuot false k 1).mag) roundInt_mono _ _
          (by omega)

/-- Gradual underflow: the difference of two finite values at different
positions is not a zero. -/
theorem sub_mag_pos (x lo : F32) (hx : x.isFinite = true) (hlo : lo.isFinite = true)
    (h : x.ord ≠ lo.ord) :
    1 ≤ (sub x lo).mag ∧ (sub x lo).isNeg = decide (x.ord < lo.ord) := by
  cases lo with
  | nan => exact Bool.noConfusion hlo
  | inf t => exact Bool.noConfusion hlo
  | fin t f n =>
    cases x with
    | nan => exact Bool.noConfusion hx
    | inf s => exact Bool.noConfusion hx
    | fin s e m =>
      show 1 ≤ (if (fin s e m).ord = (fin t f n).ord then fin (s && !t) 0 0
          else roundQuot (decide ((fin s e m).ord < (fin t f n).ord))
            ((fin s e m).ord - (fin t f n).ord).natAbs 1).mag ∧
        (if (fin s e m).ord = (fin t f n).ord then fin (s && !t) 0 0
          else roundQuot (decide ((fin s e m).ord < (fin t f n).ord))
            ((fin s e m).ord - (fin t f n).ord).natAbs 1).isNeg = _
      rw [if_neg h]
      exact ⟨roundQuot_mag_pos _ _ 1 (by decide) (by omega), roundQuot_isNeg _ _ _⟩

theorem sub_self_ord (lo : F32) (hlo : lo.isFinite = true) :
    (sub lo lo).isNaN = false ∧ (sub lo lo).ord = 0 ∧ sub lo lo = zero := by
  cases lo with
  | nan => exact Bool.noConfusion hlo
  | inf t => exact Bool.noConfusion hlo
  | fin t f n =>
    have h : sub (fin t f n) (fin t f n) = fin (t && !t) 0 0 := by
      show (if (fin t f n).ord = (fin t f n).ord then fin (t && !t) 0 0 else _) = _
      rw [if_pos rfl]
    rw [h]
    cases t <;> exact ⟨rfl, by decide, rfl⟩

theorem div_spec (a d : F32) (ha : a.isNaN = false) (hd : d.isFinite = true)
    (hd0 : d.mag ≠ 0) :
    (div a d).isNaN = false ∧ (div a d).isNeg = xor a.isNeg d.isNeg := by
  cases d with
  | nan => exact Bool.noConfusion hd
  | inf t => exact Bool.noConfusion hd
  | fin t f n =>
    cases a with
    | nan => exact Bool.noConfusion ha
    | inf s => exact ⟨rfl, rfl⟩
    | fin s e m =>
      show (if (fin t f n).mag = 0 then (if (fin s e m).mag = 0 then nan else inf (xor s t))
          else roundQuot (xor s t) ((fin s e m).mag * 2 ^ 149) (fin t f n).mag).isNaN = false ∧
        (if (fin t f n).mag = 0 then (if (fin s e m).mag = 0 then nan else inf (xor s t))
          else roundQuot (xor s t) ((fin s e m).mag * 2 ^ 149) (fin t f n).mag).isNeg = xor s t
      rw [if_neg hd0]
      exact ⟨roundQuot_isNaN _ _ _, roundQuot_isNeg _ _ _⟩

theorem div_fin_mag (s : Bool) (e : Fin 255) (m : Fin 8388608) (d : F32)
    (hd : d.isFinite = true) (hd0 : d.mag ≠ 0) :
    (div (fin s e m) d).mag = (roundQuot false ((fin s e m).mag * 2 ^ 149) d.mag).mag := by
  cases d with
  | nan => exact Bool.noConfusion hd
  | inf t => exact Bool.noConfusion hd
  | fin t f n =>
    show (if (fin t f n).mag = 0 then (if (fin s e m).mag = 0 then nan else inf (xor s t))
        else roundQuot (xor s t) ((fin s e m).mag * 2 ^ 149) (fin t f n).mag).mag = _
    rw [if_neg hd0]
    unfold roundQuot encode
    split_ifs <;> rfl

/-- Dividing by a finite value that is not zero keeps the order of the
magnitudes. -/
theorem div_mag_mono (a b d : F32) (ha : a.isNaN = false) (hb : b.isNaN = false)
    (hd : d.isFinite = true) (hd0 : d.mag ≠ 0) (h : a.mag ≤ b.mag) :
    (div a d).mag ≤ (div b d).mag := by
  cases b with
  | nan => exact Bool.noConfusion hb
  | inf s' =>
    have e : (div (inf s') d).mag = 16777216 * 2 ^ 253 := by
      cases d with
      | nan => exact Bool.noConfusion hd
      | inf t => exact Bool.noConfusion hd
      | fin t f n => rfl
    rw [e]
    exact mag_le _
  | fin s' e' m' =>
    cases a with
    | nan => exact Bool.noConfusion ha
    | inf s =>
      have h1 := mag_lt_of_isFinite (fin s' e' m') rfl
      have h2 : (inf s).mag = 16777216 * 2 ^ 253 := rfl
      omega
    | fin s e m =>
      rw [div_fin_mag s e m d hd hd0, div_fin_mag s' e' m' d hd hd0]
      have hq : 0 < d.mag := Nat.pos_of_ne_zero hd0
      apply roundQuot_mag_mono false false _ _ _ _ hq hq
      exact Nat.mul_le_mul_right _ (Nat.mul_le_mul_right _ h)

theorem div_mag_zero (a d : F32) (ha : a.isNaN = false) (hd : d.isFinite = true)
    (hd0 : d.mag ≠ 0) (h : a.mag = 0) : (div a d).mag = 0 := by
  have hz := eq_zero_of_mag a ha h
  rw [hz, div_fin_mag _ _ _ d hd hd0]
  have : (fin a.isNeg 0 0).mag = 0 := rfl
  rw [this, Nat.zero_mul]
  exact roundQuot_mag_zero false d.mag (Nat.pos_of_ne_zero hd0)

set_option maxRecDepth 100000 in
theorem roundQuot_one : (roundQuot false (2 ^ 149) 1).mag = 2 ^ 149 := by decide

/-- A finite value that is not zero, divided by itself, is 1. -/
theorem div_self_mag (d : F32) (hd : d.isFinite = true) (hd0 : d.mag ≠ 0) :
    (div d d).mag = 2 ^ 149 := by
  cases d with
  | nan => exact Bool.noConfusion hd
  | inf t => exact Bool.noConfusion hd
  | fin t f n =>
    rw [div_fin_mag t f n _ hd hd0]
    have hq : 0 < (fin t f n).mag := Nat.pos_of_ne_zero hd0
    have h1 := roundQuot_mag_mono false false ((fin t f n).mag * 2 ^ 149)
      (fin t f n).mag (2 ^ 149) 1 hq (by decide) (by ring_nf; exact le_refl _)
    have h2 := roundQuot_mag_mono false false (2 ^ 149) 1
      ((fin t f n).mag * 2 ^ 149) (fin t f n).mag (by decide) hq
      (by ring_nf; exact le_refl _)
    rw [roundQuot_one] at h1 h2
    exact le_antisymm h1 h2

/-- Dividing by a positive finite value keeps the order, dividing by a
negative one reverses it. -/
theorem div_mono (a b d : F32) (ha : a.isNaN = false) (hb : b.isNaN = false)
    (hd : d.isFinite = true) (hd0 : d.mag ≠ 0) (h : a.ord ≤ b.ord) :
    (d.isNeg = false → (div a d).ord ≤ (div b d).ord) ∧
    (d.isNeg = true → (div b d).ord ≤ (div a d).ord) := by
  have key := signed_mono a.isNeg b.isNeg a.mag b.mag (div a d).mag (div b d).mag h
    (div_mag_mono a b d ha hb hd hd0) (div_mag_mono b a d hb ha hd hd0)
    (div_mag_zero a d ha hd hd0) (div_mag_zero b d hb hd hd0)
  have sa := (div_spec a d ha hd hd0).2
  have sb := (div_spec b d hb hd hd0).2
  constructor
  · intro hs
    rw [ord_eq (div a d), ord_eq (div b d), sa, sb, hs]
    simpa using key
  · intro hs
    rw [ord_eq (div a d), ord_eq (div b d), sa, sb, hs]
    cases ha' : a.isNeg <;> cases hb' : b.isNeg <;> simp [ha', hb'] at key ⊢ <;> omega

/-! ### `maprange` -/

theorem le_of_ord {a b : F32} (ha : a.isNaN = false) (hb : b.isNaN = false)
    (h : a.ord ≤ b.ord) : a.le b = true := (le_iff a b).2 ⟨ha, hb, h⟩

theorem eq_of_ord {a b : F32} (ha : a.isNaN = false) (hb : b.isNaN = false)
    (h : a.ord = b.ord) : a.eq b = true := (eq_iff a b).2 ⟨ha, hb, h⟩

/-- For finite ends that are not equal the divisor of `maprange` is not a
zero and has the sign of `maximum - minimum`. -/
theorem divisor_spec (lo hi : F32) (hlo : lo.isFinite = true) (hhi : hi.isFinite = true)
    (hne : lo.eq hi = false) :
    (sub hi lo).isNaN = false ∧ (sub hi lo).mag ≠ 0 ∧
    (sub hi lo).isNeg = decide (hi.ord < lo.ord) := by
  have hord : hi.ord ≠ lo.ord := by
    intro hc
    have := eq_of_ord (isNaN_of_isFinite lo hlo) (isNaN_of_isFinite hi hhi) hc.symm
    rw [hne] at this
    exact Bool.noConfusion this
  obtain ⟨h1, h2⟩ := sub_mag_pos hi lo hhi hlo hord
  exact ⟨sub_isNaN hi lo (isNaN_of_isFinite hi hhi) hlo, by omega, h2⟩

theorem ord_of_mag_zero (a : F32) (h : a.mag = 0) : a.ord = 0 := by
  rw [ord_eq, h]; split_ifs <;> rfl

theorem pow149_pos : (0 : Int) < 2 ^ 149 := by positivity

/-- The quotient of `maprange` is not NaN when the input is not NaN, the ends
are finite and not equal, and their difference is finite. -/
theorem mapped_isNaN (x lo hi : F32) (hx : x.isNaN = false) (hlo : lo.isFinite = true)
    (hhi : hi.isFinite = true) (hne : lo.eq hi = false)
    (hd : (sub hi lo).isFinite = true) :
    (div (sub x lo) (sub hi lo)).isNaN = false :=
  (div_spec _ _ (sub_isNaN x lo hx hlo) hd (divisor_spec lo hi hlo hhi hne).2.1).1

/-- C8 (amended): the result of `maprange` lies in [0,1] whenever the quotient
`(input - minimum) / (maximum - minimum)` is not NaN, and is NaN when the
quotient is NaN; the quotient is not NaN for every input that is not NaN and
all finite `minimum != maximum` (inverted intervals included) whose difference
`maximum - minimum` does not overflow. -/
theorem maprange_unit (x minimum maximum : F32) :
    ((div (sub x minimum) (sub maximum minimum)).isNaN = false →
      zero.le (maprange x minimum maximum) = true ∧
      (maprange x minimum maximum).le one = true) ∧
    ((div (sub x minimum) (sub maximum minimum)).isNaN = true →
      maprange x minimum maximum = nan) ∧
    (x.isNaN = false → minimum.isFinite = true → maximum.isFinite = true →
      minimum.eq maximum = false → (sub maximum minimum).isFinite = true →
      zero.le (maprange x minimum maximum) = true ∧
      (maprange x minimum maximum).le one = true) := by
  have gen : (div (sub x minimum) (sub maximum minimum)).isNaN = false →
      zero.le (maprange x minimum maximum) = true ∧
      (maprange x minimum maximum).le one = true := by
    intro hz
    obtain ⟨h1, h2⟩ := (clamp_spec _).2 hz
    have hp := pow149_pos
    constructor
    · apply le_of_ord (by decide) h1
      show zero.ord ≤ (std_max (std_min _ one) zero).ord
      rw [h2, ord_zero]; exact le_max_right _ _
    · apply le_of_ord h1 (by decide)
      show (std_max (std_min _ one) zero).ord ≤ one.ord
      rw [h2, ord_one]; exact max_le (min_le_right _ _) hp.le
  refine ⟨gen, (clamp_spec _).1, ?_⟩
  intro hx hlo hhi hne hd
  exact gen (mapped_isNaN x minimum maximum hx hlo hhi hne hd)

/-- The quotient of `maprange` at `input = minimum`: a zero. -/
theorem mapped_at_minimum (lo hi : F32) (hlo : lo.isFinite = true) (hhi : hi.isFinite = true)
    (hne : lo.eq hi = false) :
    (div (sub lo lo) (sub hi lo)).isNaN = false ∧ (div (sub lo lo) (sub hi lo)).ord = 0 := by
  obtain ⟨hdn, hd0, _⟩ := divisor_spec lo hi hlo hhi hne
  rw [(sub_self_ord lo hlo).2.2]
  cases hs : sub hi lo with
  | nan => rw [hs] at hdn; exact Bool.noConfusion hdn
  | inf t => cases t <;> exact ⟨rfl, by decide⟩
  | fin t f n =>
    rw [hs] at hd0
    exact ⟨(div_spec zero (fin t f n) rfl rfl hd0).1,
      ord_of_mag_zero _ (div_mag_zero zero (fin t f n) rfl rfl hd0 rfl)⟩

/-- C9 (amended): for finite `minimum != maximum`, `maprange` maps `minimum`
to a value `== 0`, and, when `maximum - minimum` does not overflow, `maximum`
to a value `== 1`. -/
theorem maprange_ends (minimum maximum : F32) (hlo : minimum.isFinite = true)
    (hhi : maximum.isFinite = true) (hne : minimum.eq maximum = false) :
    (maprange minimum minimum maximum).eq zero = true ∧
    ((sub maximum minimum).isFinite = true →
      (maprange maximum minimum maximum).eq one = true) := by
  constructor
  · obtain ⟨hz, ho⟩ := mapped_at_minimum minimum maximum hlo hhi hne
    obtain ⟨h1, h2⟩ := (clamp_spec _).2 hz
    apply eq_of_ord h1 (by decide)
    show (std_max (std_min _ one) zero).ord = zero.ord
    rw [h2, ho, ord_zero]
    have hp := pow149_pos
    rw [min_eq_left hp.le, max_self]
  · intro hd
    obtain ⟨_, hd0, _⟩ := divisor_spec minimum maximum hlo hhi hne
    obtain ⟨hz, hs⟩ := div_spec (sub maximum minimum) (sub maximum minimum)
      (isNaN_of_isFinite _ hd) hd hd0
    have hm := div_self_mag (sub maximum minimum) hd hd0
    have ho : (div (sub maximum minimum) (sub maximum minimum)).ord = 2 ^ 149 := by
      rw [ord_eq, hs, hm]
      simp
    obtain ⟨h1, h2⟩ := (clamp_spec _).2 hz
    apply eq_of_ord h1 (by decide)
    show (std_max (std_min _ one) zero).ord = one.ord
    rw [h2, ho, ord_one, min_self]
    exact max_eq_left pow149_pos.le

theorem eq_false_of_lt {a b : F32} (h : a.lt b = true) : a.eq b = false ∧ b.eq a = false := by
  obtain ⟨_, _, h3⟩ := (lt_iff a b).1 h
  constructor
  · cases he : a.eq b with
    | false => rfl
    | true => have := ((eq_iff a b).1 he).2.2; omega
  · cases he : b.eq a with
    | false => rfl
    | true => have := ((eq_iff b a).1 he).2.2; omega

/-- The quotient of `maprange` keeps the order of the inputs on an interval
`minimum < maximum` and reverses it on an interval `maximum < minimum`, the
ends finite and their difference finite. -/
theorem mapped_mono (x y lo hi : F32) (hlo : lo.isFinite = true) (hhi : hi.isFinite = true)
    (hd : (sub hi lo).isFinite = true) (hxy : x.le y = true) :
    (lo.lt hi = true →
      (div (sub x lo) (sub hi lo)).isNaN = false ∧ (div (sub y lo) (sub hi lo)).isNaN = false ∧
      (div (sub x lo) (sub hi lo)).ord ≤ (div (sub y lo) (sub hi lo)).ord) ∧
    (hi.lt lo = true →
      (div (sub x lo) (sub hi lo)).isNaN = false ∧ (div (sub y lo) (sub hi lo)).isNaN = false ∧
      (div (sub y lo) (sub hi lo)).ord ≤ (div (sub x lo) (sub hi lo)).ord) := by
  obtain ⟨hx, hy, ho⟩ := (le_iff x y).1 hxy
  have hsx := sub_isNaN x lo hx hlo
  have hsy := sub_isNaN y lo hy hlo
  have hs := sub_mono_left x y lo hx hy hlo ho
  constructor
  · intro hlt
    obtain ⟨_, hd0, hsg⟩ := divisor_spec lo hi hlo hhi (eq_false_of_lt hlt).1
    have hpos : (sub hi lo).isNeg = false := by
      rw [hsg]; have := ((lt_iff lo hi).1 hlt).2.2
      exact decide_eq_false (by omega)
    exact ⟨(div_spec _ _ hsx hd hd0).1, (div_spec _ _ hsy hd hd0).1,
      (div_mono _ _ _ hsx hsy hd hd0 hs).1 hpos⟩
  · intro hlt
    obtain ⟨_, hd0, hsg⟩ := divisor_spec lo hi hlo hhi (eq_false_of_lt hlt).2
    have hneg : (sub hi lo).isNeg = true := by
      rw [hsg]; exact decide_eq_true ((lt_iff hi lo).1 hlt).2.2
    exact ⟨(div_spec _ _ hsx hd hd0).1, (div_spec _ _ hsy hd hd0).1,
      (div_mono _ _ _ hsx hsy hd hd0 hs).2 hneg⟩

/-- The quotient of `maprange` at `input = maximum`: 1, when the difference of
the finite ends is finite and not zero. -/
theorem mapped_at_maximum (lo hi : F32) (hlo : lo.isFinite = true) (hhi : hi.isFinite = true)
    (hne : lo.eq hi = false) (hd : (sub hi lo).isFinite = true) :
    (div (sub hi lo) (sub hi lo)).ord = 2 ^ 149 := by
  obtain ⟨_, hd0, _⟩ := divisor_spec lo hi hlo hhi hne
  obtain ⟨_, hs⟩ := div_spec (sub hi lo) (sub hi lo) (isNaN_of_isFinite _ hd) hd hd0
  rw [ord_eq, hs, div_self_mag (sub hi lo) hd hd0]
  simp

/-- C14 (amended): for finite `minimum < maximum` whose difference does not
overflow, `maprange` gives a value `== 0` for `x <= minimum`, a value `== 1`
for `x >= maximum`, and for `minimum <= x <= maximum` the quotient
`(x - minimum) / (maximum - minimum)` as the `float` operations compute it
(each operation rounded). -/
theorem maprange_saturating (x minimum maximum : F32) (hlo : minimum.isFinite = true)
    (hhi : maximum.isFinite = true) (hlt : minimum.lt maximum = true)
    (hd : (sub maximum minimum).isFinite = true) :
    (x.le minimum = true → (maprange x minimum maximum).eq zero = true) ∧
    (maximum.le x = true → (maprange x minimum maximum).eq one = true) ∧
    (minimum.le x = true → x.le maximum = true →
      maprange x minimum maximum = div (sub x minimum) (sub maximum minimum)) := by
  have hne := (eq_false_of_lt hlt).1
  have h0 := (mapped_at_minimum minimum maximum hlo hhi hne).2
  have h1 := mapped_at_maximum minimum maximum hlo hhi hne hd
  have hp := pow149_pos
  refine ⟨fun hx => ?_, fun hx => ?_, fun hx1 hx2 => ?_⟩
  · obtain ⟨hz, _, hm⟩ := (mapped_mono x minimum minimum maximum hlo hhi hd hx).1 hlt
    rw [h0] at hm
    obtain ⟨c1, c2⟩ := (clamp_spec _).2 hz
    apply eq_of_ord c1 (by decide)
    show (std_max (std_min _ one) zero).ord = zero.ord
    rw [c2, ord_zero]
    exact max_eq_right (le_trans (min_le_left _ _) hm)
  · obtain ⟨_, hz, hm⟩ := (mapped_mono maximum x minimum maximum hlo hhi hd hx).1 hlt
    rw [h1] at hm
    obtain ⟨c1, c2⟩ := (clamp_spec _).2 hz
    apply eq_of_ord c1 (by decide)
    show (std_max (std_min _ one) zero).ord = one.ord
    rw [c2, ord_one, min_eq_right hm]
    exact max_eq_left hp.le
  · obtain ⟨_, hz, hm0⟩ := (mapped_mono minimum x minimum maximum hlo hhi hd hx1).1 hlt
    obtain ⟨_, _, hm1⟩ := (mapped_mono x maximum minimum maximum hlo hhi hd hx2).1 hlt
    rw [h0] at hm0
    rw [h1] at hm1
    unfold maprange
    generalize div (sub x minimum) (sub maximum minimum) = z at hz hm0 hm1
    have e1 : std_min z one = z := by
      unfold std_min
      have : one.lt z = false := by
        cases hc : one.lt z with
        | false => rfl
        | true => have := ((lt_iff one z).1 hc).2.2; rw [ord_one] at this; omega
      rw [this]; rfl
    have e2 : std_max z zero = z := by
      unfold std_max
      have : z.lt zero = false := by
        cases hc : z.lt zero with
        | false => rfl
        | true => have := ((lt_iff z zero).1 hc).2.2; rw [ord_zero] at this; omega
      rw [this]; rfl
    rw [e1, e2]

/-- C17 (amended): for finite ends whose difference does not overflow and
inputs `x <= y`, `maprange` gives `maprange(x) <= maprange(y)` on an interval
`minimum < maximum` and `maprange(y) <= maprange(x)` on an inverted interval
`maximum < minimum`. -/
theorem maprange_monotone (x y minimum maximum : F32) (hlo : minimum.isFinite = true)
    (hhi : maximum.isFinite = true) (hd : (sub maximum minimum).isFinite = true)
    (hxy : x.le y = true) :
    (minimum.lt maximum = true →
      (maprange x minimum maximum).le (maprange y minimum maximum) = true) ∧
    (maximum.lt minimum = true →
      (maprange y minimum maximum).le (maprange x minimum maximum) = true) := by
  obtain ⟨m1, m2⟩ := mapped_mono x y minimum maximum hlo hhi hd hxy
  constructor
  · intro hlt
    obtain ⟨hzx, hzy, ho⟩ := m1 hlt
    obtain ⟨a1, a2⟩ := (clamp_spec _).2 hzx
    obtain ⟨b1, b2⟩ := (clamp_spec _).2 hzy
    apply le_of_ord a1 b1
    show (std_max (std_min _ one) zero).ord ≤ (std_max (std_min _ one) zero).ord
    rw [a2, b2]
    exact max_le_max (min_le_min ho (le_refl _)) (le_refl _)
  · intro hlt
    obtain ⟨hzx, hzy, ho⟩ := m2 hlt
    obtain ⟨a1, a2⟩ := (clamp_spec _).2 hzx
    obtain ⟨b1, b2⟩ := (clamp_spec _).2 hzy
    apply le_of_ord b1 a1
    show (std_max (std_min _ one) zero).ord ≤ (std_max (std_min _ one) zero).ord
    rw [a2, b2]
    exact max_le_max (min_le_min ho (le_refl _)) (le_refl _)

theorem thresh_pos : 0 < 16777216 * 2 ^ 253 := Nat.mul_pos (by decide) (Nat.two_pow_pos _)

/-- The difference of a value and a finite value at another position is not
NaN, not a zero, and negative exactly when the first value is the smaller. -/
theorem sub_nonzero (x lo : F32) (hx : x.isNaN = false) (hlo : lo.isFinite = true)
    (h : x.ord ≠ lo.ord) :
    (sub x lo).isNaN = false ∧ (sub x lo).mag ≠ 0 ∧
    (sub x lo).isNeg = decide (x.ord < lo.ord) := by
  refine ⟨sub_isNaN x lo hx hlo, ?_⟩
  cases x with
  | nan => exact Bool.noConfusion hx
  | fin s e m =>
    obtain ⟨h1, h2⟩ := sub_mag_pos (fin s e m) lo rfl hlo h
    exact ⟨by omega, h2⟩
  | inf s =>
    obtain ⟨hf1, hf2⟩ := ord_lt_of_isFinite lo hlo
    cases lo with
    | nan => exact Bool.noConfusion hlo
    | inf t => exact Bool.noConfusion hlo
    | fin t f n =>
      have e : sub (inf s) (fin t f n) = inf s := rfl
      rw [e]
      have hT := thresh_pos
      refine ⟨fun hc => ?_, ?_⟩
      · have : (inf s).mag = 16777216 * 2 ^ 253 := rfl
        omega
      · cases s with
        | true =>
          rw [ord_inf_true]
          exact (decide_eq_true hf2).symm
        | false =>
          rw [ord_inf_false]
          exact (decide_eq_false (by omega)).symm

/-- Division of a value that is not zero by a zero: the infinity with the
product of the signs. -/
theorem div_by_zero (a : F32) (sd : Bool) (ha : a.isNaN = false) (h : a.mag ≠ 0) :
    div a (fin sd 0 0) = inf (xor a.isNeg sd) := by
  cases a with
  | nan => exact Bool.noConfusion ha
  | inf s => rfl
  | fin s e m =>
    show (if (fin sd 0 0).mag = 0 then (if (fin s e m).mag = 0 then nan else inf (xor s sd))
      else roundQuot (xor s sd) ((fin s e m).mag * 2 ^ 149) (fin sd 0 0).mag) = _
    have h0 : (fin sd 0 0).mag = 0 := rfl
    rw [if_pos h0, if_neg h]
    rfl

theorem sub_of_ord_eq (x lo : F32) (hx : x.isFinite = true) (hlo : lo.isFinite = true)
    (h : x.ord = lo.ord) : sub x lo = fin (x.isNeg && !lo.isNeg) 0 0 := by
  cases x with
  | nan => exact Bool.noConfusion hx
  | inf s => exact Bool.noConfusion hx
  | fin s e m =>
    cases lo with
    | nan => exact Bool.noConfusion hlo
    | inf t => exact Bool.noConfusion hlo
    | fin t f n =>
      show (if (fin s e m).ord = (fin t f n).ord then fin (s && !t) 0 0 else _) = _
      rw [if_pos h]
      rfl

theorem isFinite_of_ord_eq (x lo : F32) (hx : x.isNaN = false) (hlo : lo.isFinite = true)
    (h : x.ord = lo.ord) : x.isFinite = true := by
  obtain ⟨hf1, hf2⟩ := ord_lt_of_isFinite lo hlo
  cases x with
  | nan => exact Bool.noConfusion hx
  | fin s e m => rfl
  | inf s =>
    cases s with
    | true => rw [ord_inf_true] at h; omega
    | false => rw [ord_inf_false] at h; omega

/-- A divisor that is a zero, the input at another position than `minimum`:
the quotient is an infinity and `maprange` returns 0 or 1. -/
theorem maprange_zero_divisor (x lo hi : F32) (sd : Bool) (hx : x.isNaN = false)
    (hlo : lo.isFinite = true) (hd : sub hi lo = fin sd 0 0) (h : x.ord ≠ lo.ord) :
    maprange x lo hi = if xor (decide (x.ord < lo.ord)) sd then zero else one := by
  obtain ⟨h1, h2, h3⟩ := sub_nonzero x lo hx hlo h
  unfold maprange
  rw [hd, div_by_zero _ sd h1 h2, h3]
  cases xor (decide (x.ord < lo.ord)) sd <;> decide

/-- A divisor that is a zero, the input at the position of `minimum`: the
quotient is NaN and so is the result of `maprange`. -/
theorem maprange_zero_over_zero (x lo hi : F32) (sd : Bool) (hx : x.isFinite = true)
    (hlo : lo.isFinite = true) (hd : sub hi lo = fin sd 0 0) (h : x.ord = lo.ord) :
    maprange x lo hi = nan := by
  unfold maprange
  rw [hd, sub_of_ord_eq x lo hx hlo h]
  cases (x.isNeg && !lo.isNeg) <;> cases sd <;> decide

/-- C15 (amended): `maprange` has no guard.  For finite `minimum` and
`maximum` its divisor `maximum - minimum` is a zero exactly when
`minimum == maximum`; the division by a zero then gives an infinity or NaN and
the function still returns a value: NaN for `x == minimum`, and 0 or 1 for
every other `x` that is not NaN (0 below and 1 above `minimum` when `maximum`
and `minimum` are the same value).  With `minimum != maximum` the divisor is
never a zero. -/
theorem maprange_degenerate (minimum maximum : F32) (hlo : minimum.isFinite = true)
    (hhi : maximum.isFinite = true) :
    ((sub maximum minimum).mag = 0 ↔ minimum.eq maximum = true) ∧
    (sub maximum minimum).isNaN = false ∧
    (minimum.eq maximum = true → ∀ x : F32, x.eq minimum = true →
      maprange x minimum maximum = nan) ∧
    (minimum.eq maximum = true → ∀ x : F32, x.isNaN = false → x.eq minimum = false →
      maprange x minimum maximum = zero ∨ maprange x minimum maximum = one) ∧
    (maximum = minimum → ∀ x : F32,
      (x.lt minimum = true → maprange x minimum maximum = zero) ∧
      (minimum.lt x = true → maprange x minimum maximum = one)) := by
  have hnlo := isNaN_of_isFinite minimum hlo
  have hnhi := isNaN_of_isFinite maximum hhi
  have hdz : minimum.eq maximum = true →
      sub maximum minimum = fin (maximum.isNeg && !minimum.isNeg) 0 0 := fun he =>
    sub_of_ord_eq maximum minimum hhi hlo ((eq_iff _ _).1 he).2.2.symm
  refine ⟨⟨fun hm => ?_, fun he => ?_⟩, sub_isNaN maximum minimum hnhi hlo, ?_, ?_, ?_⟩
  · cases he : minimum.eq maximum with
    | true => rfl
    | false => exact absurd hm (divisor_spec minimum maximum hlo hhi he).2.1
  · rw [hdz he]; rfl
  · intro he x hx
    obtain ⟨hxn, _, hxo⟩ := (eq_iff _ _).1 hx
    exact maprange_zero_over_zero x minimum maximum _
      (isFinite_of_ord_eq x minimum hxn hlo hxo) hlo (hdz he) hxo
  · intro he x hxn hx
    have hxo : x.ord ≠ minimum.ord := by
      intro hc
      rw [eq_of_ord hxn hnlo hc] at hx
      exact Bool.noConfusion hx
    rw [maprange_zero_divisor x minimum maximum _ hxn hlo (hdz he) hxo]
    split_ifs
    · exact Or.inl rfl
    · exact Or.inr rfl
  · intro he x
    subst he
    have hd : sub maximum maximum = fin false 0 0 := (sub_self_ord maximum hlo).2.2
    constructor
    · intro hx
      obtain ⟨hxn, _, hxo⟩ := (lt_iff _ _).1 hx
      rw [maprange_zero_divisor x maximum maximum false hxn hlo hd (by omega)]
      simp [hxo]
    · intro hx
      obtain ⟨_, hxn, hxo⟩ := (lt_iff _ _).1 hx
      rw [maprange_zero_divisor x maximum maximum false hxn hlo hd (by omega)]
      have : ¬ x.ord < maximum.ord := by omega
      simp [this]

/-! ### `merge` -/

theorem merge_isNaN (a b : F32) (ha : a.isNaN = false) : (merge a b).isNaN = false :=
  std_max_isNaN a b ha

theorem merge_ord (a b : F32) (ha : a.isNaN = false) (hb : b.isNaN = false) :
    (merge a b).ord = max a.ord b.ord := std_max_ord a b ha hb

theorem merge_eq_or (a b : F32) : merge a b = a ∨ merge a b = b := by
  unfold merge std_max
  split_ifs
  · exact Or.inr rfl
  · exact Or.inl rfl

/-- Merging NaN into an accumulator leaves the accumulator as it is. -/
theorem merge_nan_right (a : F32) : merge a nan = a := by
  unfold merge std_max
  have : a.lt nan = false := by simp [lt, isNaN]
  rw [this]; rfl

/-- Every result of `maprange` that is not NaN lies in [0,1]. -/
theorem result_unit_of_not_nan (x lo hi : F32) (h : (maprange x lo hi).isNaN = false) :
    zero.le (maprange x lo hi) = true ∧ (maprange x lo hi).le one = true := by
  cases hz : (div (sub x lo) (sub hi lo)).isNaN with
  | true =>
    have := (clamp_spec _).1 hz
    unfold maprange at h
    rw [this] at h
    exact Bool.noConfusion h
  | false =>
    obtain ⟨h1, h2⟩ := (clamp_spec _).2 hz
    have hp := pow149_pos
    constructor
    · apply le_of_ord (by decide) h1
      show zero.ord ≤ (std_max (std_min _ one) zero).ord
      rw [h2, ord_zero]; exact le_max_right _ _
    · apply le_of_ord h1 (by decide)
      show (std_max (std_min _ one) zero).ord ≤ one.ord
      rw [h2, ord_one]; exact max_le (min_le_right _ _) hp.le

/-- C12 (amended): for every `v >= 0` (so `v` is not NaN), merging `v` into an
accumulator holding 0 leaves a value `== v`, which is `v` itself unless `v` is
the negative zero, and merging 0 into an accumulator holding `v` leaves `v`;
every result of `maprange` that is not NaN is such a `v`. -/
theorem merge_zero_identity (v : F32) (hv : zero.le v = true) :
    (merge zero v).eq v = true ∧ (v ≠ fin true 0 0 → merge zero v = v) ∧
    merge v zero = v ∧
    (∀ x minimum maximum : F32, (maprange x minimum maximum).isNaN = false →
      zero.le (maprange x minimum maximum) = true) := by
  obtain ⟨_, hn, ho⟩ := (le_iff zero v).1 hv
  rw [ord_zero] at ho
  refine ⟨?_, ?_, ?_, fun x lo hi h => (result_unit_of_not_nan x lo hi h).1⟩
  · apply eq_of_ord (merge_isNaN zero v rfl) hn
    rw [merge_ord zero v rfl hn, ord_zero]
    exact max_eq_right ho
  · intro hne
    unfold merge std_max
    by_cases hlt : zero.lt v = true
    · rw [if_pos hlt]
    · rw [if_neg hlt]
      have h0 : v.ord = 0 := by
        by_contra hc
        exact hlt ((lt_iff zero v).2 ⟨rfl, hn, by rw [ord_zero]; omega⟩)
      have hm : v.mag = 0 := by
        rw [ord_eq] at h0
        split_ifs at h0 <;> omega
      have hz := eq_zero_of_mag v hn hm
      cases hs : v.isNeg with
      | false => rw [hs] at hz; exact hz.symm
      | true => rw [hs] at hz; exact absurd hz hne
  · unfold merge std_max
    have : v.lt zero = false := by
      cases hc : v.lt zero with
      | false => rfl
      | true => have := ((lt_iff v zero).1 hc).2.2; rw [ord_zero] at this; omega
    rw [this]; rfl

theorem le_of_le_of_le {a b c : F32} (h1 : a.le b = true) (h2 : b.le c = true) : a.le c = true := by
  obtain ⟨ha, _, hab⟩ := (le_iff a b).1 h1
  obtain ⟨_, hc, hbc⟩ := (le_iff b c).1 h2
  exact le_of_ord ha hc (le_trans hab hbc)

theorem eq_nan_of_isNaN (v : F32) (h : v.isNaN = true) : v = nan := by
  cases v with
  | nan => rfl
  | inf s => exact Bool.noConfusion h
  | fin s e m => exact Bool.noConfusion h

/-- Merging a candidate in [0,1] into an accumulator in [0,1]. -/
theorem merge_unit (r v : F32) (hr0 : zero.le r = true) (hr1 : r.le one = true)
    (hv0 : zero.le v = true) (hv1 : v.le one = true) :
    zero.le (merge r v) = true ∧ (merge r v).le one = true ∧ r.le (merge r v) = true ∧
    v.le (merge r v) = true := by
  obtain ⟨_, hrn, hro⟩ := (le_iff zero r).1 hr0
  obtain ⟨_, _, hro1⟩ := (le_iff r one).1 hr1
  obtain ⟨_, hvn, hvo⟩ := (le_iff zero v).1 hv0
  obtain ⟨_, _, hvo1⟩ := (le_iff v one).1 hv1
  have hn := merge_isNaN r v hrn
  have ho := merge_ord r v hrn hvn
  exact ⟨le_of_ord rfl hn (by rw [ho]; exact le_trans hro (le_max_left _ _)),
    le_of_ord hn rfl (by rw [ho]; exact max_le hro1 hvo1),
    le_of_ord hrn hn (by rw [ho]; exact le_max_left _ _),
    le_of_ord hvn hn (by rw [ho]; exact le_max_right _ _)⟩

/-- Merging a list of values, each NaN or in [0,1], into an accumulator in
[0,1], one after the other. -/
theorem foldl_merge_spec (vs : List F32) (acc : F32)
    (hacc : zero.le acc = true ∧ acc.le one = true)
    (hvs : ∀ v ∈ vs, v.isNaN = true ∨ (zero.le v = true ∧ v.le one = true)) :
    (zero.le (vs.foldl merge acc) = true ∧ (vs.foldl merge acc).le one = true) ∧
    (vs.foldl merge acc = acc ∨ vs.foldl merge acc ∈ vs) ∧
    acc.le (vs.foldl merge acc) = true ∧
    (∀ v ∈ vs, v.isNaN = false → v.le (vs.foldl merge acc) = true) := by
  induction vs generalizing acc with
  | nil =>
    have haccn := ((le_iff _ _).1 hacc.2).1
    exact ⟨hacc, Or.inl rfl, le_of_ord haccn haccn (le_refl _),
      fun v hv => absurd hv (List.not_mem_nil v)⟩
  | cons w ws ih =>
    rw [List.foldl_cons]
    have hws : ∀ v ∈ ws, v.isNaN = true ∨ (zero.le v = true ∧ v.le one = true) :=
      fun v hv => hvs v (List.mem_cons_of_mem w hv)
    have haccn := ((le_iff _ _).1 hacc.2).1
    rcases hvs w (List.mem_cons_self w ws) with hw | hw
    · have e : merge acc w = acc := by rw [eq_nan_of_isNaN w hw]; exact merge_nan_right acc
      rw [e]
      obtain ⟨h1, h2, h3, h4⟩ := ih acc hacc hws
      refine ⟨h1, ?_, h3, ?_⟩
      · rcases h2 with h2 | h2
        · exact Or.inl h2
        · exact Or.inr (List.mem_cons_of_mem w h2)
      · intro v hv hvn
        rcases List.mem_cons.mp hv with rfl | hv
        · rw [hw] at hvn; exact Bool.noConfusion hvn
        · exact h4 v hv hvn
    · obtain ⟨m1, m2, m3, m4⟩ := merge_unit acc w hacc.1 hacc.2 hw.1 hw.2
      obtain ⟨h1, h2, h3, h4⟩ := ih (merge acc w) ⟨m1, m2⟩ hws
      refine ⟨h1, ?_, le_of_le_of_le m3 h3, ?_⟩
      · rcases h2 with h2 | h2
        · rw [h2]
          rcases merge_eq_or acc w with e | e
          · exact Or.inl e
          · rw [e]; exact Or.inr (List.mem_cons_self w ws)
        · exact Or.inr (List.mem_cons_of_mem w h2)
      · intro v hv hvn
        rcases List.mem_cons.mp hv with rfl | hv
        · exact le_of_le_of_le m4 h3
        · exact h4 v hv hvn

/-- C18 (amended): merging a candidate in [0,1] into an accumulator in [0,1]
leaves the accumulator in [0,1]; a slot that starts at 0 and into which the
results `vs` of `maprange` (NaN results included) are merged one after the
other ends in [0,1], at 0 when `vs` is empty; it ends at 0 or at a member of
`vs`, is `>=` every member that is not NaN, and when `vs` is not empty and
holds no NaN it is `==` to the largest member. -/
theorem merge_unit_invariant (vs : List F32)
    (hvs : ∀ v ∈ vs, ∃ x minimum maximum : F32, minimum.eq maximum = false ∧
      maprange x minimum maximum = v) :
    (∀ r v : F32, zero.le r = true → r.le one = true → zero.le v = true → v.le one = true →
      zero.le (merge r v) = true ∧ (merge r v).le one = true) ∧
    (zero.le (vs.foldl merge zero) = true ∧ (vs.foldl merge zero).le one = true) ∧
    (vs = [] → vs.foldl merge zero = zero) ∧
    (vs.foldl merge zero = zero ∨ vs.foldl merge zero ∈ vs) ∧
    (∀ v ∈ vs, v.isNaN = false → v.le (vs.foldl merge zero) = true) ∧
    (vs ≠ [] → (∀ v ∈ vs, v.isNaN = false) →
      ∃ v ∈ vs, (vs.foldl merge zero).eq v = true ∧
        ∀ w ∈ vs, w.le (vs.foldl merge zero) = true) := by
  have hunit : ∀ v ∈ vs, v.isNaN = true ∨ (zero.le v = true ∧ v.le one = true) := by
    intro v hv
    obtain ⟨x, lo, hi, _, rfl⟩ := hvs v hv
    cases hn : (maprange x lo hi).isNaN with
    | true => exact Or.inl rfl
    | false => exact Or.inr (result_unit_of_not_nan x lo hi hn)
  obtain ⟨h1, h2, _, h4⟩ := foldl_merge_spec vs zero ⟨by decide, by decide⟩ hunit
  refine ⟨fun r v a b c d => ⟨(merge_unit r v a b c d).1, (merge_unit r v a b c d).2.1⟩,
    h1, fun hnil => by rw [hnil]; rfl, h2, h4, ?_⟩
  intro hne hall
  have hrn := ((le_iff _ _).1 h1.1).2.1
  rcases h2 with hz | hm
  · obtain ⟨w, hw⟩ := List.exists_mem_of_ne_nil vs hne
    refine ⟨w, hw, ?_, fun u hu => h4 u hu (hall u hu)⟩
    have hwn := hall w hw
    have hle := h4 w hw hwn
    rw [hz] at hle ⊢
    have h0 : zero.le w = true := by
      rcases hunit w hw with hc | hc
      · rw [hwn] at hc; exact Bool.noConfusion hc
      · exact hc.1
    exact eq_of_ord rfl hwn (le_antisymm ((le_iff _ _).1 h0).2.2 ((le_iff _ _).1 hle).2.2)
  · exact ⟨_, hm, eq_of_ord hrn hrn rfl, fun u hu => h4 u hu (hall u hu)⟩

/-- On finite values the `float` function `merge` is the maximum of the two
numbers, which is what `CGestureMatcher.merge` computes on rationals. -/
theorem merge_toRat (a b : F32) (ha : a.isNaN = false) (hb : b.isNaN = false) :
    (merge a b).toRat = CGestureMatcher.merge a.toRat b.toRat := by
  have hp : (0 : ℚ) < 2 ^ 149 := by positivity
  unfold merge std_max CGestureMatcher.merge CGestureMatcher.std_max toRat
  by_cases h : a.lt b = true
  · have hlt : a.ord < b.ord := ((lt_iff a b).1 h).2.2
    have hq : (a.ord : ℚ) / 2 ^ 149 < (b.ord : ℚ) / 2 ^ 149 :=
      div_lt_div_of_pos_right (by exact_mod_cast hlt) hp
    rw [if_pos h, if_pos hq]
  · have hle : b.ord ≤ a.ord := by
      by_contra hc
      exact h ((lt_iff a b).2 ⟨ha, hb, not_le.mp hc⟩)
    have hq : ¬ (a.ord : ℚ) / 2 ^ 149 < (b.ord : ℚ) / 2 ^ 149 := by
      rw [not_lt]
      exact div_le_div_of_nonneg_right (by exact_mod_cast hle) hp.le
    rw [if_neg h, if_neg hq]

/-! ### The claims at concrete inputs -/

set_option maxRecDepth 100000 in
/-- C8 as stated fails: `minimum = -(2 ^ 127)`, `maximum = 2 ^ 127` and
`x = 2 ^ 127` are finite with `minimum != maximum`, both differences overflow
to infinity, and the result is NaN, which is not in [0,1]. -/
theorem maprange_unit_counterexample :
    big.isFinite = true ∧ negBig.isFinite = true ∧ negBig.eq big = false ∧
    sub big negBig = inf false ∧ maprange big negBig big = nan ∧
    ¬ (zero.le (maprange big negBig big) = true ∧
      (maprange big negBig big).le one = true) := by decide

set_option maxRecDepth 100000 in
theorem maprange_unit_witness :
    zero.le (maprange (ofNat 7) (ofNat 10) (fin true 128 0)) = true ∧
    (maprange (ofNat 7) (ofNat 10) (fin true 128 0)).le one = true :=
  (maprange_unit (ofNat 7) (ofNat 10) (fin true 128 0)).2.2 (by decide) (by decide)
    (by decide) (by decide) (by decide)

set_option maxRecDepth 100000 in
/-- C9 as stated fails: with `minimum = -(2 ^ 127)` and `maximum = 2 ^ 127`
the result at `maximum` is NaN, not 1. -/
theorem maprange_ends_counterexample :
    negBig.isFinite = true ∧ big.isFinite = true ∧ negBig.eq big = false ∧
    (maprange big negBig big).eq one = false := by decide

set_option maxRecDepth 100000 in
theorem maprange_ends_witness :
    (maprange (ofNat 3) (ofNat 3) (fin true 129 2097152)).eq zero = true ∧
    (maprange (fin true 129 2097152) (ofNat 3) (fin true 129 2097152)).eq one = true :=
  ⟨(maprange_ends (ofNat 3) (fin true 129 2097152) (by decide) (by decide) (by decide)).1,
   (maprange_ends (ofNat 3) (fin true 129 2097152) (by decide) (by decide) (by decide)).2
     (by decide)⟩

set_option maxRecDepth 100000 in
/-- C12 as stated fails: `maprange(2 ^ 127, -(2 ^ 127), 2 ^ 127)`, with
`minimum != maximum`, is NaN, and merging it into an accumulator holding 0
leaves 0, not that output; and merging the negative zero, which is `>= 0`,
into 0 leaves the positive zero. -/
theorem merge_zero_identity_counterexample :
    negBig.eq big = false ∧ maprange big negBig big = nan ∧
    merge zero (maprange big negBig big) = zero ∧
    merge zero (maprange big negBig big) ≠ maprange big negBig big ∧
    zero.le (fin true 0 0) = true ∧ merge zero (fin true 0 0) ≠ fin true 0 0 := by decide

set_option maxRecDepth 100000 in
theorem merge_zero_identity_witness :
    (merge zero (div (ofNat 3) (ofNat 4))).eq (div (ofNat 3) (ofNat 4)) = true ∧
    merge zero (div (ofNat 3) (ofNat 4)) = div (ofNat 3) (ofNat 4) ∧
    merge (div (ofNat 3) (ofNat 4)) zero = div (ofNat 3) (ofNat 4) :=
  ⟨(merge_zero_identity (div (ofNat 3) (ofNat 4)) (by decide)).1,
   (merge_zero_identity (div (ofNat 3) (ofNat 4)) (by decide)).2.1 (by decide),
   (merge_zero_identity (div (ofNat 3) (ofNat 4)) (by decide)).2.2.1⟩

set_option maxRecDepth 100000 in
/-- C14 as stated fails: on the interval from `-(2 ^ 127)` to `2 ^ 127` the
result at `x = maximum` is NaN, not 1, and the result at `x = 0` is 0, where
the exact quotient is 1/2. -/
theorem maprange_saturating_counterexample :
    negBig.isFinite = true ∧ big.isFinite = true ∧ negBig.lt big = true ∧
    big.le big = true ∧ (maprange big negBig big).eq one = false ∧
    negBig.le zero = true ∧ zero.le big = true ∧ maprange zero negBig big = zero := by decide

set_option maxRecDepth 100000 in
theorem maprange_saturating_witness :
    (maprange one (ofNat 2) (ofNat 6)).eq zero = true ∧
    (maprange (ofNat 9) (ofNat 2) (ofNat 6)).eq one = true ∧
    maprange (ofNat 3) (ofNat 2) (ofNat 6) =
      div (sub (ofNat 3) (ofNat 2)) (sub (ofNat 6) (ofNat 2)) :=
  ⟨(maprange_saturating one (ofNat 2) (ofNat 6) (by decide) (by decide) (by decide)
      (by decide)).1 (by decide),
   (maprange_saturating (ofNat 9) (ofNat 2) (ofNat 6) (by decide) (by decide) (by decide)
      (by decide)).2.1 (by decide),
   (maprange_saturating (ofNat 3) (ofNat 2) (ofNat 6) (by decide) (by decide) (by decide)
      (by decide)).2.2 (by decide) (by decide)⟩

set_option maxRecDepth 100000 in
/-- C15 as stated fails: with `minimum == maximum == 5` the function has a
result, 0 at `x = 4` and 1 at `x = 6`; and with `minimum == maximum` both the
positive infinity the divisor is NaN, not a zero. -/
theorem maprange_degenerate_counterexample :
    (ofNat 5).eq (ofNat 5) = true ∧
    maprange (ofNat 4) (ofNat 5) (ofNat 5) = zero ∧
    maprange (ofNat 6) (ofNat 5) (ofNat 5) = one ∧
    (inf false).eq (inf false) = true ∧ sub (inf false) (inf false) = nan := by decide

set_option maxRecDepth 100000 in
theorem maprange_degenerate_witness :
    (sub (ofNat 5) (ofNat 5)).mag = 0 ∧ (sub (ofNat 6) (ofNat 5)).mag ≠ 0 ∧
    maprange (ofNat 5) (ofNat 5) (ofNat 5) = nan ∧
    maprange (ofNat 4) (ofNat 5) (ofNat 5) = zero :=
  ⟨(maprange_degenerate (ofNat 5) (ofNat 5) (by decide) (by decide)).1.2 (by decide),
   fun h => absurd ((maprange_degenerate (ofNat 5) (ofNat 6) (by decide) (by decide)).1.1 h)
     (by decide),
   (maprange_degenerate (ofNat 5) (ofNat 5) (by decide) (by decide)).2.2.1 (by decide)
     (ofNat 5) (by decide),
   ((maprange_degenerate (ofNat 5) (ofNat 5) (by decide) (by decide)).2.2.2.2 rfl
     (ofNat 4)).1 (by decide)⟩

set_option maxRecDepth 100000 in
/-- C17 as stated fails: on the interval from `-(2 ^ 127)` to `2 ^ 127`, with
`x = 0 <= y = 2 ^ 127`, the result at `x` is 0 and the result at `y` is NaN,
so `maprange(x) <= maprange(y)` is false. -/
theorem maprange_monotone_counterexample :
    negBig.lt big = true ∧ zero.le big = true ∧
    maprange zero negBig big = zero ∧ maprange big negBig big = nan ∧
    (maprange zero negBig big).le (maprange big negBig big) = false := by decide

set_option maxRecDepth 100000 in
theorem maprange_monotone_witness :
    (maprange one zero (ofNat 4)).le (maprange (ofNat 3) zero (ofNat 4)) = true ∧
    (maprange (ofNat 3) (ofNat 4) zero).le (maprange one (ofNat 4) zero) = true :=
  ⟨(maprange_monotone one (ofNat 3) zero (ofNat 4) (by decide) (by decide) (by decide)
      (by decide)).1 (by decide),
   (maprange_monotone one (ofNat 3) (ofNat 4) zero (by decide) (by decide) (by decide)
      (by decide)).2 (by decide)⟩

set_option maxRecDepth 100000 in
/-- C18 as stated fails: the one output `maprange(2 ^ 127, -(2 ^ 127), 2 ^ 127)`,
with `minimum != maximum`, is NaN; merged into a slot holding 0 it leaves 0,
which is not equal to the largest (the only) output merged. -/
theorem merge_unit_invariant_counterexample :
    negBig.eq big = false ∧
    [maprange big negBig big].foldl merge zero = zero ∧
    ([maprange big negBig big].foldl merge zero).eq (maprange big negBig big) = false ∧
    [maprange big negBig big].foldl merge zero ≠ maprange big negBig big := by decide

set_option maxRecDepth 100000 in
theorem merge_unit_invariant_witness :
    (zero.le ([maprange (ofNat 3) (ofNat 2) (ofNat 6), maprange big negBig big,
        maprange (ofNat 9) (ofNat 2) (ofNat 6)].foldl merge zero) = true ∧
      ([maprange (ofNat 3) (ofNat 2) (ofNat 6), maprange big negBig big,
        maprange (ofNat 9) (ofNat 2) (ofNat 6)].foldl merge zero).le one = true) ∧
    ([] : List F32).foldl merge zero = zero :=
  ⟨(merge_unit_invariant [maprange (ofNat 3) (ofNat 2) (ofNat 6), maprange big negBig big,
      maprange (ofNat 9) (ofNat 2) (ofNat 6)] (by
        intro v hv
        simp only [List.mem_cons, List.mem_singleton, List.not_mem_nil, or_false] at hv
        rcases hv with rfl | rfl | rfl
        · exact ⟨_, _, _, by decide, rfl⟩
        · exact ⟨_, _, _, by decide, rfl⟩
        · exact ⟨_, _, _, by decide, rfl⟩)).2.1,
   (merge_unit_invariant [] (fun v hv => absurd hv (List.not_mem_nil v))).2.2.1 rfl⟩

end F32

end CGestureMatcher
